import Mathlib

/-!
Verification development for the incremental HTTP/1.1 response parser in
src/http.rs of the rustdiscordbot repository.

Modelling conventions:
- The parser is embedded twice. The byte-level model (BHttpParser, bNext)
  follows the source exactly: the buffer holds raw bytes, the unconsumed
  suffix is decoded with String::from_utf8_lossy on every next() call, the
  extraction helpers compare byte lengths of the collected strings, the
  strides mix character enumerate indices with the byte offset pos, and
  the Body step measures and byte-slices the decoded body (a slice off a
  character boundary panics). The char-level model (HttpParser, next)
  treats the buffer as pre-decoded one-char-per-byte text; it is proved to
  coincide with the byte-level model on ASCII input (bNext_sim through
  bFeedList_sim), which is the domain of every concrete ASCII input used
  below, and diverges from it on non-ASCII input exactly as the source
  does (c1_counterexample).
- The Rust HashMap of headers is modelled as an association list whose
  insert overwrites the existing entry for a key in place. The same
  sequence of inserts therefore produces the same list, and lookup agrees
  with HashMap lookup.
- The unconditional panic at the todo marker in the transfer-encoding
  branch is modelled by a ghost flag crashed on the parser state together
  with a distinguished crash outcome: a panicked process performs no
  further transitions, which the model reflects by making every later
  operation a no-op on a crashed state. The flag has no counterpart field
  in the Rust struct; it only records that the process aborted.
- Rust i32 parsing of the 3-digit status code can neither fail nor
  overflow, so it is embedded as the literal base-10 value. Rust usize
  parsing of the content-length value is embedded with its error cases:
  optional leading plus sign, at least one digit, all digits, value below
  2 to the 64 (64-bit usize overflow bound).
-/

set_option maxRecDepth 4000
set_option linter.unnecessarySeqFocus false
set_option linter.deprecated false

/-- Association-list model of the Rust header HashMap: insert overwrites
the entry for an existing key in place, otherwise appends. -/
def insertH : List (List Char × List Char) → List Char → List Char → List (List Char × List Char)
  | [], k, v => [(k, v)]
  | (k', v') :: t, k, v => if k' = k then (k, v) :: t else (k', v') :: insertH t k v

/-- Association-list lookup, modelling HashMap get. -/
def getH : List (List Char × List Char) → List Char → Option (List Char)
  | [], _ => none
  | (k', v') :: t, k => if k' = k then some v' else getH t k

/-- Model of the Rust struct HttpParsed (the ParsedResponse of the spec). -/
structure HttpParsed where
  code : Option Int
  msg : Option (List Char)
  headers : List (List Char × List Char)
  body : Option (List Char)
deriving DecidableEq

/-- Model of the Rust struct HttpParser. The crashed field is the ghost
flag described in the module header. -/
structure HttpParser where
  combined : List Char
  parsed : HttpParsed
  pos : Nat
  content_length : Option Nat
  end_headers : Bool
  error : Bool
  read_body : Bool
  crashed : Bool
deriving DecidableEq

/-- The mode computed at the top of Iterator::next in http.rs, plus the
two implicit stopping modes (done, and the ghost crashed mode). -/
inductive Mode where
  | code | msg | header | body | done | error | crashed
deriving DecidableEq

/-- Mode selection, line for line from the if-chain in Iterator::next.
The crashed test comes first because a panicked process runs nothing. -/
def HttpParser.mode (p : HttpParser) : Mode :=
  if p.crashed then .crashed
  else if p.error then .error
  else if p.parsed.code.isNone then .code
  else if p.parsed.msg.isNone then .msg
  else if !p.end_headers then .header
  else if p.read_body && p.parsed.body.isNone then .body
  else .done

/-- The unconsumed suffix of the buffer, the buf of Iterator::next. -/
def bufOf (p : HttpParser) : List Char := p.combined.drop p.pos

/-- Outcome of one tokenizing step: out of data, fatal with a message, or
a successful extraction. Mirrors HttpIterError plus success. -/
inductive StepOut (α : Type) where
  | eos
  | fatal (m : String)
  | ok (a : α)
deriving DecidableEq

/-- The literal status-line prefix expected by the Code mode. -/
def httpSig : List Char := "HTTP/1.1 ".toList

/-- The digit test used for the status code, from the closure at line 130
of http.rs: between the characters 0 and 9 inclusive. -/
def isDigitC (c : Char) : Bool := '0' ≤ c && c ≤ '9'

/-- The per-character check loop of iter_expect_each_char: each available
character is checked in order and the first failure wins, before any
length test. -/
def expectDigits : List Char → Option String
  | [] => none
  | c :: t => if isDigitC c then expectDigits t else some "HTTP code must be 3 digits"

/-- Base-10 value of a digit string. -/
def digitsVal (l : List Char) : Nat :=
  l.foldl (fun a c => a * 10 + (c.toNat - 48)) 0

/-- The Code-mode pipeline of Iterator::next: expect the literal
"HTTP/1.1 ", then 3 digit characters checked one by one, then a single
space; the extracted digits are the status code. The i32 parse of a
3-digit string cannot fail, so the value is embedded directly. On success
exactly 13 characters are consumed. -/
def codeStep (buf : List Char) : StepOut Int :=
  if buf.length < 9 then .eos
  else if buf.take 9 ≠ httpSig then .fatal "Comparison failed"
  else
    match expectDigits ((buf.drop 9).take 3) with
    | some m => .fatal m
    | none =>
      if (buf.drop 9).length < 3 then .eos
      else if ((buf.drop 9).drop 3).length < 1 then .eos
      else if ((buf.drop 9).drop 3).take 1 ≠ [' '] then .fatal "Comparison failed"
      else .ok (Int.ofNat (digitsVal ((buf.drop 9).take 3)))

/-- iter_extract_to_eol: scan for the first CR-LF pair; return the line
before it and the total number of characters consumed including CR-LF. -/
def extractToEol : List Char → Option (List Char × Nat)
  | c1 :: c2 :: rest =>
    if c1 = '\r' ∧ c2 = '\n' then some ([], 2)
    else
      match extractToEol (c2 :: rest) with
      | some (line, k) => some (c1 :: line, k + 1)
      | none => none
  | _ => none

/-- line.split_once of the two-character separator colon-space: split at
the first occurrence. -/
def splitOnceCS : List Char → Option (List Char × List Char)
  | [] => none
  | c :: rest =>
    if c = ':' ∧ rest.head? = some ' ' then some ([], rest.tail)
    else
      match splitOnceCS rest with
      | some (k, v) => some (c :: k, v)
      | none => none

/-- Model of usize::from_str_radix with radix 10: optional leading plus
sign, then a nonempty all-digit string whose value fits in 64 bits. A
minus sign or any other character is an error (none). -/
def parseUsize (s : List Char) : Option Nat :=
  let s' := if s.head? = some '+' then s.tail else s
  if s' = [] then none
  else if s'.all isDigitC then
    if digitsVal s' < 2 ^ 64 then some (digitsVal s') else none
  else none

/-- Result of one call to Iterator::next: a successful advance carrying
the new state, a clean stop (iterator returned None, state unchanged), a
fatal error carrying the new state and message, or the todo panic. -/
inductive NextRes where
  | cont (p' : HttpParser)
  | stop
  | fail (p' : HttpParser) (msg : String)
  | crash (p' : HttpParser)
deriving DecidableEq

/-- The error wrapper applied at line 188 of http.rs. -/
def errMsg (m : String) : String := "Error parsing HTTP: " ++ m

/-- The transfer-encoding header key looked up at the blank line. -/
def teKey : List Char := "transfer-encoding".toList

/-- The content-length header key looked up at the blank line. -/
def clKey : List Char := "content-length".toList

/-- One call to Iterator::next for HttpParser, translated mode by mode.
Cursor arithmetic: for the Code, Msg and Header modes the stride equals
the number of characters consumed (the End stride only occurs when the
step consumed the whole buffer, in which case pos plus consumed equals the
buffer length); the Body mode always takes the End stride, advancing pos
by the full length of the unconsumed suffix. -/
def next (p : HttpParser) : NextRes :=
  match p.mode with
  | .crashed => .stop
  | .error => .stop
  | .done => .stop
  | .code =>
    match codeStep (bufOf p) with
    | .eos => .stop
    | .fatal m => .fail { p with error := true } (errMsg m)
    | .ok v =>
      .cont { p with
              parsed := { p.parsed with code := some v }
              pos := p.pos + 13 }
  | .msg =>
    match extractToEol (bufOf p) with
    | none => .stop
    | some (line, k) =>
      .cont { p with
              parsed := { p.parsed with msg := some line }
              pos := p.pos + k }
  | .header =>
    match extractToEol (bufOf p) with
    | none => .stop
    | some (line, k) =>
      match splitOnceCS line with
      | some (key, val) =>
        .cont { p with
                parsed := { p.parsed with
                            headers := insertH p.parsed.headers (key.map Char.toLower) val }
                pos := p.pos + k }
      | none =>
        if line.isEmpty then
          if !p.read_body then
            .cont { p with end_headers := true, pos := p.pos + k }
          else if (getH p.parsed.headers teKey).isSome then
            .crash { p with end_headers := true, crashed := true }
          else
            match getH p.parsed.headers clKey with
            | some lenStr =>
              match parseUsize lenStr with
              | some n =>
                .cont { p with
                        end_headers := true
                        content_length := some n
                        pos := p.pos + k }
              | none =>
                .fail { p with end_headers := true, error := true }
                  (errMsg ("Error parsing content length: " ++ String.mk lenStr))
            | none =>
              .fail { p with end_headers := true, error := true }
                (errMsg "Missing content length specifier")
        else
          .fail { p with error := true } (errMsg ("Invalid HTTP header: " ++ String.mk line))
  | .body =>
    match p.content_length with
    | none => .fail { p with error := true } (errMsg "Missing content length")
    | some len =>
      if (bufOf p).length < len then .stop
      else
        .cont { p with
                parsed := { p.parsed with body := some ((bufOf p).take len) }
                pos := p.pos + (bufOf p).length }

/-- The observable result of one call to HttpParser::parse. The crash
constructor records that the process aborted inside the call. -/
inductive FeedResult where
  | ok
  | err (msg : String)
  | crash
deriving DecidableEq

/-- Rank of the current mode, used only for the termination measure: each
successful step either advances the cursor or strictly lowers the rank. -/
def HttpParser.rank (p : HttpParser) : Nat :=
  match p.mode with
  | .code => 4
  | .msg => 3
  | .header => 2
  | .body => 1
  | _ => 0

/-- Termination measure for the drive loop of HttpParser::parse. -/
def meas (p : HttpParser) : Nat := (p.combined.length - p.pos) + p.rank

/-- Fuel-driven drive loop: the for-loop body of HttpParser::parse, which
calls next until it reports None (stop) or an error, or panics. -/
def runFuel : Nat → HttpParser → HttpParser × FeedResult
  | 0, p => (p, .ok)
  | f + 1, p =>
    match next p with
    | .cont p' => runFuel f p'
    | .stop => (p, .ok)
    | .fail p' m => (p', .err m)
    | .crash p' => (p', .crash)

/-- The drive loop run to completion: meas p units of fuel always
suffice, as proved below (runFuel_irrel and next_cont_meas). -/
def run (p : HttpParser) : HttpParser × FeedResult := runFuel (meas p) p

/-- Append new bytes to the internal buffer, the extend_from_slice call
at the top of HttpParser::parse. -/
def HttpParser.push (p : HttpParser) (s : List Char) : HttpParser :=
  { p with combined := p.combined ++ s }

/-- HttpParser::parse: append the fed bytes, then drive the iterator
until it stops or fails. -/
def HttpParser.parse (p : HttpParser) (s : List Char) : HttpParser × FeedResult :=
  run (p.push s)

/-- HttpParser::init. -/
def HttpParser.init (rb : Bool) : HttpParser :=
  { combined := []
    parsed := { code := none, msg := none, headers := [], body := none }
    pos := 0
    content_length := none
    end_headers := false
    error := false
    read_body := rb
    crashed := false }

/-- HttpParser::should_continue. -/
def HttpParser.should_continue (p : HttpParser) : Bool :=
  if p.read_body then !p.error && p.parsed.body.isNone
  else !p.error && !p.end_headers

/-- HttpParser::eof: set the error flag and report the eof error. -/
def HttpParser.eof (p : HttpParser) : HttpParser × FeedResult :=
  ({ p with error := true }, .err "eof unexpected")

/-- Feed a list of fragments one parse call at a time. -/
def feedList (p : HttpParser) : List (List Char) → HttpParser
  | [] => p
  | s :: ss => feedList (p.parse s).1 ss

/-- The cursor never moves past the end of the buffer; established for
all reachable states below. -/
def posInv (p : HttpParser) : Prop := p.pos ≤ p.combined.length

/-- Structural population invariant of a parser state: the reason phrase
is never set before the status code, headers never terminate before both
are set, and the body is never set before the headers terminate. -/
def StructInv (p : HttpParser) : Prop :=
  (p.parsed.msg ≠ none → p.parsed.code ≠ none) ∧
  (p.end_headers = true → p.parsed.msg ≠ none ∧ p.parsed.code ≠ none) ∧
  (p.parsed.body ≠ none → p.end_headers = true)

/-- States reachable from a fresh parser through the public operations. -/
inductive Reachable : HttpParser → Prop
  | init (rb : Bool) : Reachable (HttpParser.init rb)
  | parse (p : HttpParser) (s : List Char) : Reachable p → Reachable (p.parse s).1
  | eof (p : HttpParser) : Reachable p → Reachable (p.eof).1

/-!
### Byte-level model

The char-level model above treats the byte buffer as pre-decoded
one-char-per-byte text, which is exact only for ASCII input. The source,
however, stores raw bytes and decodes the unconsumed suffix with
String::from_utf8_lossy on every next() call (http.rs line 117), and its
length and slice arithmetic mixes units: enumerate indices are character
indices while pos is a byte offset, the extraction helpers compare byte
lengths of the collected strings (next.len(), out.len()), the End stride
adds the byte length of the decoded string, and the Body step measures
and slices the decoded body by bytes (body.len() and body[0..len],
http.rs lines 172 and 175), where a slice off a character boundary
panics. The definitions below embed the parser at that byte level; the
correspondence proved later shows the char-level model coincides with it
on ASCII input, which is why the char-level claims are exact on their
domains. -/

/-- One step of Rust String::from_utf8_lossy: given the lead byte and the
bytes after it, decode one character (or one U+FFFD replacement for a
maximal invalid subpart) and return it with the remaining undecoded
bytes. The second-byte ranges exclude overlong forms and surrogates
exactly as the Rust validator does; an invalid continuation byte consumes
only the valid prefix of the sequence and emits one replacement
character, and a truncated sequence at the end of input emits one
replacement character. -/
def utf8Decode1 (b : Nat) (bs : List Nat) : Char × List Nat :=
  if b < 0x80 then (Char.ofNat b, bs)
  else if b < 0xC2 then ('�', bs)
  else if b < 0xE0 then
    match bs with
    | [] => ('�', [])
    | c1 :: bs1 =>
      if 0x80 ≤ c1 ∧ c1 < 0xC0 then
        (Char.ofNat ((b - 0xC0) * 64 + (c1 - 0x80)), bs1)
      else ('�', c1 :: bs1)
  else if b < 0xF0 then
    match bs with
    | [] => ('�', [])
    | c1 :: bs1 =>
      if (if b = 0xE0 then 0xA0 ≤ c1 ∧ c1 < 0xC0
          else if b = 0xED then 0x80 ≤ c1 ∧ c1 < 0xA0
          else 0x80 ≤ c1 ∧ c1 < 0xC0) then
        match bs1 with
        | [] => ('�', [])
        | c2 :: bs2 =>
          if 0x80 ≤ c2 ∧ c2 < 0xC0 then
            (Char.ofNat ((b - 0xE0) * 4096 + (c1 - 0x80) * 64 + (c2 - 0x80)), bs2)
          else ('�', c2 :: bs2)
      else ('�', c1 :: bs1)
  else if b < 0xF5 then
    match bs with
    | [] => ('�', [])
    | c1 :: bs1 =>
      if (if b = 0xF0 then 0x90 ≤ c1 ∧ c1 < 0xC0
          else if b = 0xF4 then 0x80 ≤ c1 ∧ c1 < 0x90
          else 0x80 ≤ c1 ∧ c1 < 0xC0) then
        match bs1 with
        | [] => ('�', [])
        | c2 :: bs2 =>
          if 0x80 ≤ c2 ∧ c2 < 0xC0 then
            match bs2 with
            | [] => ('�', [])
            | c3 :: bs3 =>
              if 0x80 ≤ c3 ∧ c3 < 0xC0 then
                (Char.ofNat ((b - 0xF0) * 262144 + (c1 - 0x80) * 4096
                    + (c2 - 0x80) * 64 + (c3 - 0x80)), bs3)
              else ('�', c3 :: bs3)
          else ('�', c2 :: bs2)
      else ('�', c1 :: bs1)
  else ('�', bs)

/-- Rust String::from_utf8_lossy, written with an explicit fuel argument
to make the recursion structural: every step consumes at least one byte
(utf8Decode1_len), so fuel equal to the input length (as used by
utf8Lossy below) never runs out; utf8LossyF_fuel makes this precise. -/
def utf8LossyF : Nat → List Nat → List Char
  | 0, _ => []
  | _ + 1, [] => []
  | f + 1, b :: bs => (utf8Decode1 b bs).1 :: utf8LossyF f (utf8Decode1 b bs).2

/-- Rust String::from_utf8_lossy. -/
def utf8Lossy (bs : List Nat) : List Char := utf8LossyF bs.length bs

/-- Byte length of the String holding these characters (Rust str::len). -/
def strLen : List Char → Nat
  | [] => 0
  | c :: t => c.utf8Size + strLen t

/-- Byte slice s[0..n] of the String holding these characters: the
characters fully covered by the first n bytes when n lands on a character
boundary, none otherwise (a Rust byte-slice off a boundary panics). -/
def takeBytes : List Char → Nat → Option (List Char)
  | _, 0 => some []
  | [], _ + 1 => none
  | c :: t, n =>
    if c.utf8Size ≤ n then (takeBytes t (n - c.utf8Size)).map (fun r => c :: r)
    else none

/-- The stride chosen by HttpIterStride::to_stride after the iterator was
advanced by skip calls totalling k: the enumerate (character) index k of
the next character when one remains, otherwise the End stride, which the
caller replaces by the byte length of the decoded buffer (buf.len()). -/
def strideOf (k : Nat) (buf : List Char) : Nat :=
  if k < buf.length then k else strLen buf

/-- Byte-level model of the Rust struct HttpParser: combined holds raw
bytes and pos is a byte offset, exactly as in the source. -/
structure BHttpParser where
  combined : List Nat
  parsed : HttpParsed
  pos : Nat
  content_length : Option Nat
  end_headers : Bool
  error : Bool
  read_body : Bool
  crashed : Bool
deriving DecidableEq

/-- Mode selection for the byte-level state: the same if-chain from
Iterator::next, reading the same fields. -/
def BHttpParser.mode (p : BHttpParser) : Mode :=
  if p.crashed then .crashed
  else if p.error then .error
  else if p.parsed.code.isNone then .code
  else if p.parsed.msg.isNone then .msg
  else if !p.end_headers then .header
  else if p.read_body && p.parsed.body.isNone then .body
  else .done

/-- The buf of Iterator::next at the byte level: the lossy decoding of
the unconsumed byte suffix. -/
def bBufOf (p : BHttpParser) : List Char := utf8Lossy (p.combined.drop p.pos)

/-- The Code-mode pipeline with the byte-length checks of iter_extract
and iter_expect_each_char: collected characters are measured in bytes
(next.len(), out.len()) before comparison. -/
def bCodeStep (buf : List Char) : StepOut Int :=
  if strLen (buf.take 9) < 9 then .eos
  else if buf.take 9 ≠ httpSig then .fatal "Comparison failed"
  else
    match expectDigits ((buf.drop 9).take 3) with
    | some m => .fatal m
    | none =>
      if strLen ((buf.drop 9).take 3) < 3 then .eos
      else if strLen (((buf.drop 9).drop 3).take 1) < 1 then .eos
      else if ((buf.drop 9).drop 3).take 1 ≠ [' '] then .fatal "Comparison failed"
      else .ok (Int.ofNat (digitsVal ((buf.drop 9).take 3)))

/-- Result of one byte-level call to Iterator::next. -/
inductive BNextRes where
  | cont (p' : BHttpParser)
  | stop
  | fail (p' : BHttpParser) (msg : String)
  | crash (p' : BHttpParser)
deriving DecidableEq

/-- One call to Iterator::next at the byte level. The strides follow the
source exactly: the Code, Msg and Header arms advance pos by the
enumerate character index of the next unconsumed character (where the
Msg/Header skip amount is the byte length out.len() of the consumed
line), falling back to the byte length of the decoded buffer on the End
stride; the Body arm always takes the End stride. The Body arm measures
the decoded body in bytes and takes the byte slice body[0..len], which
panics (crash) off a character boundary. -/
def bNext (p : BHttpParser) : BNextRes :=
  match p.mode with
  | .crashed => .stop
  | .error => .stop
  | .done => .stop
  | .code =>
    match bCodeStep (bBufOf p) with
    | .eos => .stop
    | .fatal m => .fail { p with error := true } (errMsg m)
    | .ok v =>
      .cont { p with
              parsed := { p.parsed with code := some v }
              pos := p.pos + strideOf 13 (bBufOf p) }
  | .msg =>
    match extractToEol (bBufOf p) with
    | none => .stop
    | some (line, k) =>
      .cont { p with
              parsed := { p.parsed with msg := some line }
              pos := p.pos + strideOf (strLen ((bBufOf p).take k)) (bBufOf p) }
  | .header =>
    match extractToEol (bBufOf p) with
    | none => .stop
    | some (line, k) =>
      match splitOnceCS line with
      | some (key, val) =>
        .cont { p with
                parsed := { p.parsed with
                            headers := insertH p.parsed.headers (key.map Char.toLower) val }
                pos := p.pos + strideOf (strLen ((bBufOf p).take k)) (bBufOf p) }
      | none =>
        if line.isEmpty then
          if !p.read_body then
            .cont { p with
                    end_headers := true
                    pos := p.pos + strideOf (strLen ((bBufOf p).take k)) (bBufOf p) }
          else if (getH p.parsed.headers teKey).isSome then
            .crash { p with end_headers := true, crashed := true }
          else
            match getH p.parsed.headers clKey with
            | some lenStr =>
              match parseUsize lenStr with
              | some n =>
                .cont { p with
                        end_headers := true
                        content_length := some n
                        pos := p.pos + strideOf (strLen ((bBufOf p).take k)) (bBufOf p) }
              | none =>
                .fail { p with end_headers := true, error := true }
                  (errMsg ("Error parsing content length: " ++ String.mk lenStr))
            | none =>
              .fail { p with end_headers := true, error := true }
                (errMsg "Missing content length specifier")
        else
          .fail { p with error := true } (errMsg ("Invalid HTTP header: " ++ String.mk line))
  | .body =>
    match p.content_length with
    | none => .fail { p with error := true } (errMsg "Missing content length")
    | some len =>
      if strLen (bBufOf p) < len then .stop
      else
        match takeBytes (bBufOf p) len with
        | some body =>
          .cont { p with
                  parsed := { p.parsed with body := some body }
                  pos := p.pos + strLen (bBufOf p) }
        | none => .crash { p with crashed := true }

/-- Rank of the byte-level mode, for the termination measure. -/
def BHttpParser.rank (p : BHttpParser) : Nat :=
  match p.mode with
  | .code => 4
  | .msg => 3
  | .header => 2
  | .body => 1
  | _ => 0

/-- Termination measure of the byte-level drive loop. -/
def bMeas (p : BHttpParser) : Nat := (p.combined.length - p.pos) + p.rank

/-- Fuel-driven byte-level drive loop of HttpParser::parse. -/
def bRunFuel : Nat → BHttpParser → BHttpParser × FeedResult
  | 0, p => (p, .ok)
  | f + 1, p =>
    match bNext p with
    | .cont p' => bRunFuel f p'
    | .stop => (p, .ok)
    | .fail p' m => (p', .err m)
    | .crash p' => (p', .crash)

/-- The byte-level drive loop run to completion; bMeas p units of fuel
always suffice, as proved below. -/
def bRun (p : BHttpParser) : BHttpParser × FeedResult := bRunFuel (bMeas p) p

/-- Append fed bytes: extend_from_slice. -/
def BHttpParser.push (p : BHttpParser) (s : List Nat) : BHttpParser :=
  { p with combined := p.combined ++ s }

/-- Byte-level HttpParser::parse. -/
def BHttpParser.parse (p : BHttpParser) (s : List Nat) : BHttpParser × FeedResult :=
  bRun (p.push s)

/-- Byte-level HttpParser::init. -/
def BHttpParser.init (rb : Bool) : BHttpParser :=
  { combined := []
    parsed := { code := none, msg := none, headers := [], body := none }
    pos := 0
    content_length := none
    end_headers := false
    error := false
    read_body := rb
    crashed := false }

theorem mode_push (p : HttpParser) (s : List Char) : (p.push s).mode = p.mode := rfl

theorem mode_congr {p q : HttpParser} (h1 : p.crashed = q.crashed) (h2 : p.error = q.error)
    (h3 : p.parsed.code = q.parsed.code) (h4 : p.parsed.msg = q.parsed.msg)
    (h5 : p.parsed.body = q.parsed.body) (h6 : p.end_headers = q.end_headers)
    (h7 : p.read_body = q.read_body) : p.mode = q.mode := by
  unfold HttpParser.mode
  rw [h1, h2, h3, h4, h5, h6, h7]

theorem rank_congr {p q : HttpParser} (h : p.mode = q.mode) : p.rank = q.rank := by
  unfold HttpParser.rank
  rw [h]

theorem mode_crashed_iff {p : HttpParser} : p.mode = .crashed ↔ p.crashed = true := by
  unfold HttpParser.mode
  split_ifs <;> simp_all

theorem mode_error_iff {p : HttpParser} :
    p.mode = .error ↔ p.crashed = false ∧ p.error = true := by
  unfold HttpParser.mode
  split_ifs <;> simp_all

theorem mode_code_iff {p : HttpParser} :
    p.mode = .code ↔ p.crashed = false ∧ p.error = false ∧ p.parsed.code = none := by
  unfold HttpParser.mode
  split_ifs <;> simp_all [Option.isNone_iff_eq_none]

theorem mode_msg_iff {p : HttpParser} :
    p.mode = .msg ↔ p.crashed = false ∧ p.error = false ∧ p.parsed.code ≠ none ∧
      p.parsed.msg = none := by
  unfold HttpParser.mode
  split_ifs <;> simp_all [Option.isNone_iff_eq_none]

theorem mode_header_iff {p : HttpParser} :
    p.mode = .header ↔ p.crashed = false ∧ p.error = false ∧ p.parsed.code ≠ none ∧
      p.parsed.msg ≠ none ∧ p.end_headers = false := by
  unfold HttpParser.mode
  split_ifs <;> simp_all [Option.isNone_iff_eq_none]

theorem mode_body_iff {p : HttpParser} :
    p.mode = .body ↔ p.crashed = false ∧ p.error = false ∧ p.parsed.code ≠ none ∧
      p.parsed.msg ≠ none ∧ p.end_headers = true ∧ p.read_body = true ∧
      p.parsed.body = none := by
  unfold HttpParser.mode
  split_ifs <;> simp_all [Option.isNone_iff_eq_none]

theorem rank_le_three {p : HttpParser} (h : p.parsed.code ≠ none) : p.rank ≤ 3 := by
  unfold HttpParser.rank
  cases hm : p.mode <;> simp_all [mode_code_iff]

theorem rank_le_two {p : HttpParser} (h1 : p.parsed.code ≠ none)
    (h2 : p.parsed.msg ≠ none) : p.rank ≤ 2 := by
  unfold HttpParser.rank
  cases hm : p.mode <;> simp_all [mode_code_iff, mode_msg_iff]

theorem rank_le_one {p : HttpParser} (h1 : p.parsed.code ≠ none)
    (h2 : p.parsed.msg ≠ none) (h3 : p.end_headers = true) : p.rank ≤ 1 := by
  unfold HttpParser.rank
  cases hm : p.mode <;> simp_all [mode_code_iff, mode_msg_iff, mode_header_iff]

theorem rank_eq_zero {p : HttpParser} (h1 : p.parsed.code ≠ none)
    (h2 : p.parsed.msg ≠ none) (h3 : p.end_headers = true)
    (h4 : p.parsed.body ≠ none) : p.rank = 0 := by
  unfold HttpParser.rank
  cases hm : p.mode <;>
    simp_all [mode_code_iff, mode_msg_iff, mode_header_iff, mode_body_iff]

theorem next_eq_stop_of_rank_zero {p : HttpParser} (h : p.rank = 0) : next p = .stop := by
  unfold HttpParser.rank at h
  unfold next
  cases hm : p.mode <;> simp_all

/-! ### Facts about the tokenizing helpers -/

theorem extractToEol_nil : extractToEol [] = none := rfl

theorem extractToEol_one (c : Char) : extractToEol [c] = none := rfl

theorem extractToEol_cons2 (c1 c2 : Char) (rest : List Char) :
    extractToEol (c1 :: c2 :: rest) =
      if c1 = '\r' ∧ c2 = '\n' then some ([], 2)
      else (extractToEol (c2 :: rest)).map (fun r => (c1 :: r.1, r.2 + 1)) := by
  have base :
      extractToEol (c1 :: c2 :: rest) =
        if c1 = '\r' ∧ c2 = '\n' then some ([], 2)
        else
          match extractToEol (c2 :: rest) with
          | some (line, k) => some (c1 :: line, k + 1)
          | none => none := rfl
  rw [base]
  split_ifs with h
  · rfl
  · cases extractToEol (c2 :: rest) with
    | none => rfl
    | some r => cases r; rfl

theorem extractToEol_bounds {l : List Char} :
    ∀ {line : List Char} {k : Nat}, extractToEol l = some (line, k) →
      2 ≤ k ∧ k ≤ l.length ∧ line.length + 2 = k := by
  induction l with
  | nil => intro line k h; simp [extractToEol_nil] at h
  | cons c1 t ih =>
    cases t with
    | nil => intro line k h; simp [extractToEol_one] at h
    | cons c2 rest =>
      intro line k h
      rw [extractToEol_cons2] at h
      split_ifs at h with hc
      · simp only [Option.some.injEq, Prod.mk.injEq] at h
        obtain ⟨h1, h2⟩ := h
        subst h1
        subst h2
        simp
      · simp only [Option.map_eq_some'] at h
        obtain ⟨⟨line0, k0⟩, hr, he⟩ := h
        simp only [Prod.mk.injEq] at he
        obtain ⟨he1, he2⟩ := he
        subst he1
        subst he2
        have hb := ih hr
        simp only [List.length_cons] at hb ⊢
        omega

theorem expectDigits_eq_none {l : List Char} :
    expectDigits l = none ↔ ∀ c ∈ l, isDigitC c = true := by
  induction l with
  | nil => simp [expectDigits]
  | cons c t ih =>
    unfold expectDigits
    split_ifs with hc <;> simp_all

theorem expectDigits_eq_some {l : List Char} {m : String}
    (h : expectDigits l = some m) : m = "HTTP code must be 3 digits" := by
  induction l with
  | nil => simp [expectDigits] at h
  | cons c t ih =>
    unfold expectDigits at h
    split_ifs at h with hc
    · exact ih h
    · simp only [Option.some.injEq] at h
      exact h.symm

theorem splitOnceCS_cons (c : Char) (rest : List Char) :
    splitOnceCS (c :: rest) =
      if c = ':' ∧ rest.head? = some ' ' then some ([], rest.tail)
      else (splitOnceCS rest).map (fun r => (c :: r.1, r.2)) := by
  have base :
      splitOnceCS (c :: rest) =
        if c = ':' ∧ rest.head? = some ' ' then some ([], rest.tail)
        else
          match splitOnceCS rest with
          | some (k, v) => some (c :: k, v)
          | none => none := rfl
  rw [base]
  split_ifs with h
  · rfl
  · cases splitOnceCS rest with
    | none => rfl
    | some r => cases r; rfl

/-- Splitting at the first occurrence: a line built as key, separator,
value splits back into exactly that key and value whenever the key itself
contains no separator, even if the value does. -/
theorem splitOnceCS_sep {key : List Char} (val : List Char)
    (h : splitOnceCS key = none) :
    splitOnceCS (key ++ ':' :: ' ' :: val) = some (key, val) := by
  induction key with
  | nil =>
    rw [List.nil_append, splitOnceCS_cons]
    simp
  | cons c t ih =>
    rw [splitOnceCS_cons] at h
    split_ifs at h with hc
    simp only [Option.map_eq_none'] at h
    rw [List.cons_append, splitOnceCS_cons]
    have hcond : ¬(c = ':' ∧ (t ++ ':' :: ' ' :: val).head? = some ' ') := by
      cases t with
      | nil =>
        intro hx
        obtain ⟨hx1, hx2⟩ := hx
        simp at hx2
      | cons c0 t0 =>
        simp only [List.cons_append, List.head?_cons] at hc ⊢
        exact hc
    rw [if_neg hcond, ih h]
    rfl

/-! ### Facts about the Code-mode pipeline -/

theorem codeStep_ok_length {buf : List Char} {v : Int} (h : codeStep buf = .ok v) :
    13 ≤ buf.length := by
  unfold codeStep at h
  by_cases h1 : buf.length < 9
  · rw [if_pos h1] at h; exact absurd h (by simp)
  rw [if_neg h1] at h
  by_cases h2 : buf.take 9 ≠ httpSig
  · rw [if_pos h2] at h; exact absurd h (by simp)
  rw [if_neg h2] at h
  cases hm : expectDigits ((buf.drop 9).take 3) with
  | some m =>
    rw [hm] at h
    have h' : StepOut.fatal (α := Int) m = .ok v := h
    exact absurd h' (by simp)
  | none =>
    rw [hm] at h
    have h' :
        (if (buf.drop 9).length < 3 then StepOut.eos (α := Int)
         else if ((buf.drop 9).drop 3).length < 1 then .eos
         else if ((buf.drop 9).drop 3).take 1 ≠ [' '] then .fatal "Comparison failed"
         else .ok (Int.ofNat (digitsVal ((buf.drop 9).take 3)))) = .ok v := h
    split_ifs at h' with h3 h4 h5
    simp only [List.length_drop] at h3 h4
    omega

theorem next_stop_done {p : HttpParser} (h : p.mode = .done) : next p = .stop := by
  unfold next
  rw [h]

theorem next_stop_error {p : HttpParser} (h : p.mode = .error) : next p = .stop := by
  unfold next
  rw [h]

theorem next_stop_crashed {p : HttpParser} (h : p.mode = .crashed) : next p = .stop := by
  unfold next
  rw [h]

theorem next_code_eos {p : HttpParser} (h : p.mode = .code)
    (hc : codeStep (bufOf p) = .eos) : next p = .stop := by
  unfold next
  rw [h, hc]

theorem next_code_fatal {p : HttpParser} {m : String} (h : p.mode = .code)
    (hc : codeStep (bufOf p) = .fatal m) :
    next p = .fail { p with error := true } (errMsg m) := by
  unfold next
  rw [h, hc]

theorem next_code_ok {p : HttpParser} {v : Int} (h : p.mode = .code)
    (hc : codeStep (bufOf p) = .ok v) :
    next p = .cont { p with
                     parsed := { p.parsed with code := some v }
                     pos := p.pos + 13 } := by
  unfold next
  rw [h, hc]

theorem next_msg_eos {p : HttpParser} (h : p.mode = .msg)
    (he : extractToEol (bufOf p) = none) : next p = .stop := by
  unfold next
  rw [h, he]

theorem next_msg_some {p : HttpParser} {line : List Char} {k : Nat} (h : p.mode = .msg)
    (he : extractToEol (bufOf p) = some (line, k)) :
    next p = .cont { p with
                     parsed := { p.parsed with msg := some line }
                     pos := p.pos + k } := by
  unfold next
  rw [h, he]

theorem next_header_eos {p : HttpParser} (h : p.mode = .header)
    (he : extractToEol (bufOf p) = none) : next p = .stop := by
  unfold next
  rw [h, he]

theorem next_header_pair {p : HttpParser} {line key val : List Char} {k : Nat}
    (h : p.mode = .header) (he : extractToEol (bufOf p) = some (line, k))
    (hs : splitOnceCS line = some (key, val)) :
    next p = .cont { p with
                     parsed := { p.parsed with
                                 headers := insertH p.parsed.headers (key.map Char.toLower) val }
                     pos := p.pos + k } := by
  unfold next
  simp only [h, he, hs]

theorem next_header_invalid {p : HttpParser} {line : List Char} {k : Nat}
    (h : p.mode = .header) (he : extractToEol (bufOf p) = some (line, k))
    (hs : splitOnceCS line = none) (hne : line ≠ []) :
    next p = .fail { p with error := true }
      (errMsg ("Invalid HTTP header: " ++ String.mk line)) := by
  unfold next
  cases line with
  | nil => exact absurd rfl hne
  | cons c t =>
    simp only [h, he, hs, List.isEmpty_cons]
    simp

theorem next_header_blank_nobody {p : HttpParser} {k : Nat}
    (h : p.mode = .header) (he : extractToEol (bufOf p) = some ([], k))
    (hrb : p.read_body = false) :
    next p = .cont { p with end_headers := true, pos := p.pos + k } := by
  unfold next
  simp only [h, he]
  simp [hrb, splitOnceCS]

theorem next_header_blank_te {p : HttpParser} {k : Nat} {te : List Char}
    (h : p.mode = .header) (he : extractToEol (bufOf p) = some ([], k))
    (hrb : p.read_body = true)
    (hte : getH p.parsed.headers teKey = some te) :
    next p = .crash { p with end_headers := true, crashed := true } := by
  unfold next
  simp only [h, he]
  simp [hrb, hte, splitOnceCS]

theorem next_header_blank_cl_ok {p : HttpParser} {k : Nat} {lenStr : List Char} {n : Nat}
    (h : p.mode = .header) (he : extractToEol (bufOf p) = some ([], k))
    (hrb : p.read_body = true)
    (hte : getH p.parsed.headers teKey = none)
    (hcl : getH p.parsed.headers clKey = some lenStr)
    (hn : parseUsize lenStr = some n) :
    next p = .cont { p with
                     end_headers := true
                     content_length := some n
                     pos := p.pos + k } := by
  unfold next
  simp only [h, he]
  simp [hrb, hte, hcl, hn, splitOnceCS]

theorem next_header_blank_cl_bad {p : HttpParser} {k : Nat} {lenStr : List Char}
    (h : p.mode = .header) (he : extractToEol (bufOf p) = some ([], k))
    (hrb : p.read_body = true)
    (hte : getH p.parsed.headers teKey = none)
    (hcl : getH p.parsed.headers clKey = some lenStr)
    (hn : parseUsize lenStr = none) :
    next p = .fail { p with end_headers := true, error := true }
      (errMsg ("Error parsing content length: " ++ String.mk lenStr)) := by
  unfold next
  simp only [h, he]
  simp [hrb, hte, hcl, hn, splitOnceCS]

theorem next_header_blank_missing {p : HttpParser} {k : Nat}
    (h : p.mode = .header) (he : extractToEol (bufOf p) = some ([], k))
    (hrb : p.read_body = true)
    (hte : getH p.parsed.headers teKey = none)
    (hcl : getH p.parsed.headers clKey = none) :
    next p = .fail { p with end_headers := true, error := true }
      (errMsg "Missing content length specifier") := by
  unfold next
  simp only [h, he]
  simp [hrb, hte, hcl, splitOnceCS]

theorem next_body_nolen {p : HttpParser} (h : p.mode = .body)
    (hc : p.content_length = none) :
    next p = .fail { p with error := true } (errMsg "Missing content length") := by
  unfold next
  rw [h, hc]

theorem next_body_eos {p : HttpParser} {n : Nat} (h : p.mode = .body)
    (hc : p.content_length = some n) (hl : (bufOf p).length < n) : next p = .stop := by
  unfold next
  simp only [h, hc]
  rw [if_pos hl]

theorem next_body_ok {p : HttpParser} {n : Nat} (h : p.mode = .body)
    (hc : p.content_length = some n) (hl : ¬(bufOf p).length < n) :
    next p = .cont { p with
                     parsed := { p.parsed with body := some ((bufOf p).take n) }
                     pos := p.pos + (bufOf p).length } := by
  unfold next
  simp only [h, hc]
  rw [if_neg hl]

/-! ### Inversion of one step -/

/-- Inversion for a successful advance: exactly one of the six productive
transitions happened, with its guard conditions. -/
theorem next_cont_inv {p p' : HttpParser} (h : next p = .cont p') :
    (∃ v, p.mode = .code ∧ codeStep (bufOf p) = .ok v ∧
      p' = { p with parsed := { p.parsed with code := some v }, pos := p.pos + 13 }) ∨
    (∃ line k, p.mode = .msg ∧ extractToEol (bufOf p) = some (line, k) ∧
      p' = { p with parsed := { p.parsed with msg := some line }, pos := p.pos + k }) ∨
    (∃ line k key val, p.mode = .header ∧ extractToEol (bufOf p) = some (line, k) ∧
      splitOnceCS line = some (key, val) ∧
      p' = { p with
             parsed := { p.parsed with
                         headers := insertH p.parsed.headers (key.map Char.toLower) val }
             pos := p.pos + k }) ∨
    (∃ k, p.mode = .header ∧ extractToEol (bufOf p) = some ([], k) ∧ p.read_body = false ∧
      p' = { p with end_headers := true, pos := p.pos + k }) ∨
    (∃ k lenStr n, p.mode = .header ∧ extractToEol (bufOf p) = some ([], k) ∧
      p.read_body = true ∧ getH p.parsed.headers teKey = none ∧
      getH p.parsed.headers clKey = some lenStr ∧ parseUsize lenStr = some n ∧
      p' = { p with end_headers := true, content_length := some n, pos := p.pos + k }) ∨
    (∃ n, p.mode = .body ∧ p.content_length = some n ∧ ¬(bufOf p).length < n ∧
      p' = { p with
             parsed := { p.parsed with body := some ((bufOf p).take n) }
             pos := p.pos + (bufOf p).length }) := by
  cases hm : p.mode with
  | done => rw [next_stop_done hm] at h; simp at h
  | error => rw [next_stop_error hm] at h; simp at h
  | crashed => rw [next_stop_crashed hm] at h; simp at h
  | code =>
    cases hcs : codeStep (bufOf p) with
    | eos => rw [next_code_eos hm hcs] at h; simp at h
    | fatal m => rw [next_code_fatal hm hcs] at h; simp at h
    | ok v =>
      rw [next_code_ok hm hcs] at h
      injection h with h1
      exact Or.inl ⟨v, rfl, rfl, h1.symm⟩
  | msg =>
    cases he : extractToEol (bufOf p) with
    | none => rw [next_msg_eos hm he] at h; simp at h
    | some r =>
      obtain ⟨line, k⟩ := r
      rw [next_msg_some hm he] at h
      injection h with h1
      exact Or.inr (Or.inl ⟨line, k, rfl, rfl, h1.symm⟩)
  | header =>
    cases he : extractToEol (bufOf p) with
    | none => rw [next_header_eos hm he] at h; simp at h
    | some r =>
      obtain ⟨line, k⟩ := r
      cases hs : splitOnceCS line with
      | some kv =>
        obtain ⟨key, val⟩ := kv
        rw [next_header_pair hm he hs] at h
        injection h with h1
        exact Or.inr (Or.inr (Or.inl ⟨line, k, key, val, rfl, rfl, hs, h1.symm⟩))
      | none =>
        cases line with
        | cons c t =>
          rw [next_header_invalid hm he hs (by simp)] at h
          simp at h
        | nil =>
          cases hrb : p.read_body with
          | false =>
            rw [next_header_blank_nobody hm he hrb] at h
            injection h with h1
            rw [hrb] at h1
            exact Or.inr (Or.inr (Or.inr (Or.inl ⟨k, rfl, rfl, rfl, h1.symm⟩)))
          | true =>
            cases hte : getH p.parsed.headers teKey with
            | some te => rw [next_header_blank_te hm he hrb hte] at h; simp at h
            | none =>
              cases hcl : getH p.parsed.headers clKey with
              | none => rw [next_header_blank_missing hm he hrb hte hcl] at h; simp at h
              | some lenStr =>
                cases hn : parseUsize lenStr with
                | none => rw [next_header_blank_cl_bad hm he hrb hte hcl hn] at h; simp at h
                | some n =>
                  rw [next_header_blank_cl_ok hm he hrb hte hcl hn] at h
                  injection h with h1
                  rw [hrb] at h1
                  exact Or.inr (Or.inr (Or.inr (Or.inr (Or.inl
                    ⟨k, lenStr, n, rfl, rfl, rfl, rfl, rfl, hn, h1.symm⟩))))
  | body =>
    cases hcn : p.content_length with
    | none => rw [next_body_nolen hm hcn] at h; simp at h
    | some n =>
      by_cases hl : (bufOf p).length < n
      · rw [next_body_eos hm hcn hl] at h; simp at h
      · rw [next_body_ok hm hcn hl] at h
        injection h with h1
        rw [hcn] at h1
        exact Or.inr (Or.inr (Or.inr (Or.inr (Or.inr ⟨n, rfl, rfl, hl, h1.symm⟩))))

/-- Inversion for a fatal error: one of the five fatal transitions
happened, with its guard conditions. -/
theorem next_fail_inv {p p' : HttpParser} {m : String} (h : next p = .fail p' m) :
    (∃ m0, p.mode = .code ∧ codeStep (bufOf p) = .fatal m0 ∧ m = errMsg m0 ∧
      p' = { p with error := true }) ∨
    (∃ line k, p.mode = .header ∧ extractToEol (bufOf p) = some (line, k) ∧
      splitOnceCS line = none ∧ line ≠ [] ∧
      m = errMsg ("Invalid HTTP header: " ++ String.mk line) ∧
      p' = { p with error := true }) ∨
    (∃ k lenStr, p.mode = .header ∧ extractToEol (bufOf p) = some ([], k) ∧
      p.read_body = true ∧ getH p.parsed.headers teKey = none ∧
      getH p.parsed.headers clKey = some lenStr ∧ parseUsize lenStr = none ∧
      m = errMsg ("Error parsing content length: " ++ String.mk lenStr) ∧
      p' = { p with end_headers := true, error := true }) ∨
    (∃ k, p.mode = .header ∧ extractToEol (bufOf p) = some ([], k) ∧
      p.read_body = true ∧ getH p.parsed.headers teKey = none ∧
      getH p.parsed.headers clKey = none ∧
      m = errMsg "Missing content length specifier" ∧
      p' = { p with end_headers := true, error := true }) ∨
    (p.mode = .body ∧ p.content_length = none ∧ m = errMsg "Missing content length" ∧
      p' = { p with error := true }) := by
  cases hm : p.mode with
  | done => rw [next_stop_done hm] at h; simp at h
  | error => rw [next_stop_error hm] at h; simp at h
  | crashed => rw [next_stop_crashed hm] at h; simp at h
  | code =>
    cases hcs : codeStep (bufOf p) with
    | eos => rw [next_code_eos hm hcs] at h; simp at h
    | ok v => rw [next_code_ok hm hcs] at h; simp at h
    | fatal m0 =>
      rw [next_code_fatal hm hcs] at h
      injection h with h1 h2
      exact Or.inl ⟨m0, rfl, rfl, h2.symm, h1.symm⟩
  | msg =>
    cases he : extractToEol (bufOf p) with
    | none => rw [next_msg_eos hm he] at h; simp at h
    | some r =>
      obtain ⟨line, k⟩ := r
      rw [next_msg_some hm he] at h
      simp at h
  | header =>
    cases he : extractToEol (bufOf p) with
    | none => rw [next_header_eos hm he] at h; simp at h
    | some r =>
      obtain ⟨line, k⟩ := r
      cases hs : splitOnceCS line with
      | some kv =>
        obtain ⟨key, val⟩ := kv
        rw [next_header_pair hm he hs] at h
        simp at h
      | none =>
        cases line with
        | cons c t =>
          rw [next_header_invalid hm he hs (by simp)] at h
          injection h with h1 h2
          exact Or.inr (Or.inl ⟨c :: t, k, rfl, rfl, hs, by simp, h2.symm, h1.symm⟩)
        | nil =>
          cases hrb : p.read_body with
          | false =>
            rw [next_header_blank_nobody hm he hrb] at h
            simp at h
          | true =>
            cases hte : getH p.parsed.headers teKey with
            | some te => rw [next_header_blank_te hm he hrb hte] at h; simp at h
            | none =>
              cases hcl : getH p.parsed.headers clKey with
              | none =>
                rw [next_header_blank_missing hm he hrb hte hcl] at h
                injection h with h1 h2
                rw [hrb] at h1
                exact Or.inr (Or.inr (Or.inr (Or.inl
                  ⟨k, rfl, rfl, rfl, rfl, rfl, h2.symm, h1.symm⟩)))
              | some lenStr =>
                cases hn : parseUsize lenStr with
                | some n =>
                  rw [next_header_blank_cl_ok hm he hrb hte hcl hn] at h
                  simp at h
                | none =>
                  rw [next_header_blank_cl_bad hm he hrb hte hcl hn] at h
                  injection h with h1 h2
                  rw [hrb] at h1
                  exact Or.inr (Or.inr (Or.inl
                    ⟨k, lenStr, rfl, rfl, rfl, rfl, rfl, hn, h2.symm, h1.symm⟩))
  | body =>
    cases hcn : p.content_length with
    | some n =>
      by_cases hl : (bufOf p).length < n
      · rw [next_body_eos hm hcn hl] at h; simp at h
      · rw [next_body_ok hm hcn hl] at h; simp at h
    | none =>
      rw [next_body_nolen hm hcn] at h
      injection h with h1 h2
      rw [hcn] at h1
      exact Or.inr (Or.inr (Or.inr (Or.inr ⟨rfl, rfl, h2.symm, h1.symm⟩)))

/-- Inversion for the todo panic: only the transfer-encoding branch at the
blank line reaches it. -/
theorem next_crash_inv {p p' : HttpParser} (h : next p = .crash p') :
    ∃ k te, p.mode = .header ∧ extractToEol (bufOf p) = some ([], k) ∧
      p.read_body = true ∧ getH p.parsed.headers teKey = some te ∧
      p' = { p with end_headers := true, crashed := true } := by
  cases hm : p.mode with
  | done => rw [next_stop_done hm] at h; simp at h
  | error => rw [next_stop_error hm] at h; simp at h
  | crashed => rw [next_stop_crashed hm] at h; simp at h
  | code =>
    cases hcs : codeStep (bufOf p) with
    | eos => rw [next_code_eos hm hcs] at h; simp at h
    | ok v => rw [next_code_ok hm hcs] at h; simp at h
    | fatal m0 => rw [next_code_fatal hm hcs] at h; simp at h
  | msg =>
    cases he : extractToEol (bufOf p) with
    | none => rw [next_msg_eos hm he] at h; simp at h
    | some r =>
      obtain ⟨line, k⟩ := r
      rw [next_msg_some hm he] at h
      simp at h
  | header =>
    cases he : extractToEol (bufOf p) with
    | none => rw [next_header_eos hm he] at h; simp at h
    | some r =>
      obtain ⟨line, k⟩ := r
      cases hs : splitOnceCS line with
      | some kv =>
        obtain ⟨key, val⟩ := kv
        rw [next_header_pair hm he hs] at h
        simp at h
      | none =>
        cases line with
        | cons c t =>
          rw [next_header_invalid hm he hs (by simp)] at h
          simp at h
        | nil =>
          cases hrb : p.read_body with
          | false =>
            rw [next_header_blank_nobody hm he hrb] at h
            simp at h
          | true =>
            cases hte : getH p.parsed.headers teKey with
            | some te =>
              rw [next_header_blank_te hm he hrb hte] at h
              injection h with h1
              rw [hrb] at h1
              exact ⟨k, te, rfl, rfl, rfl, rfl, h1.symm⟩
            | none =>
              cases hcl : getH p.parsed.headers clKey with
              | none => rw [next_header_blank_missing hm he hrb hte hcl] at h; simp at h
              | some lenStr =>
                cases hn : parseUsize lenStr with
                | some n => rw [next_header_blank_cl_ok hm he hrb hte hcl hn] at h; simp at h
                | none => rw [next_header_blank_cl_bad hm he hrb hte hcl hn] at h; simp at h
  | body =>
    cases hcn : p.content_length with
    | some n =>
      by_cases hl : (bufOf p).length < n
      · rw [next_body_eos hm hcn hl] at h; simp at h
      · rw [next_body_ok hm hcn hl] at h; simp at h
    | none => rw [next_body_nolen hm hcn] at h; simp at h

/-! ### The termination measure decreases at every productive step -/

theorem bufOf_length (p : HttpParser) : (bufOf p).length = p.combined.length - p.pos := by
  simp [bufOf]

theorem next_cont_meas {p p' : HttpParser} (h : next p = .cont p') : meas p' < meas p := by
  rcases next_cont_inv h with
    ⟨v, hm, hcs, hp⟩ | ⟨line, k, hm, he, hp⟩ | ⟨line, k, key, val, hm, he, hs, hp⟩ |
    ⟨k, hm, he, hrb, hp⟩ | ⟨k, lenStr, n, hm, he, hrb, hte, hcl, hn, hp⟩ |
    ⟨n, hm, hcn, hl, hp⟩
  · subst hp
    have hr4 : p.rank = 4 := by unfold HttpParser.rank; rw [hm]
    have hr3 : ({ p with
        parsed := { p.parsed with code := some v }
        pos := p.pos + 13 } : HttpParser).rank ≤ 3 := rank_le_three (by simp)
    have h13 : 13 ≤ (bufOf p).length := codeStep_ok_length hcs
    rw [bufOf_length] at h13
    unfold meas
    simp only at hr3 ⊢
    omega
  · subst hp
    have hrk : p.rank = 3 := by unfold HttpParser.rank; rw [hm]
    have hcode : p.parsed.code ≠ none := (mode_msg_iff.mp hm).2.2.1
    have hr2 : ({ p with
        parsed := { p.parsed with msg := some line }
        pos := p.pos + k } : HttpParser).rank ≤ 2 :=
      rank_le_two (by simpa using hcode) (by simp)
    obtain ⟨hk2, hkl, -⟩ := extractToEol_bounds he
    rw [bufOf_length] at hkl
    unfold meas
    simp only at hr2 ⊢
    omega
  · subst hp
    have hrk : p.rank = 2 := by unfold HttpParser.rank; rw [hm]
    have hmode : ({ p with
        parsed := { p.parsed with
                    headers := insertH p.parsed.headers (key.map Char.toLower) val }
        pos := p.pos + k } : HttpParser).mode = p.mode :=
      mode_congr (by simp) (by simp) (by simp) (by simp) (by simp) (by simp) (by simp)
    have hr2 : ({ p with
        parsed := { p.parsed with
                    headers := insertH p.parsed.headers (key.map Char.toLower) val }
        pos := p.pos + k } : HttpParser).rank = 2 := by
      rw [rank_congr hmode, hrk]
    obtain ⟨hk2, hkl, -⟩ := extractToEol_bounds he
    rw [bufOf_length] at hkl
    unfold meas
    simp only at hr2 ⊢
    omega
  · subst hp
    have hrk : p.rank = 2 := by unfold HttpParser.rank; rw [hm]
    obtain ⟨-, -, hcode, hmsg, -⟩ := mode_header_iff.mp hm
    have hr1 : ({ p with end_headers := true, pos := p.pos + k } : HttpParser).rank ≤ 1 :=
      rank_le_one (by simpa using hcode) (by simpa using hmsg) (by simp)
    obtain ⟨hk2, hkl, -⟩ := extractToEol_bounds he
    rw [bufOf_length] at hkl
    unfold meas
    simp only at hr1 ⊢
    omega
  · subst hp
    have hrk : p.rank = 2 := by unfold HttpParser.rank; rw [hm]
    obtain ⟨-, -, hcode, hmsg, -⟩ := mode_header_iff.mp hm
    have hr1 : ({ p with
        end_headers := true
        content_length := some n
        pos := p.pos + k } : HttpParser).rank ≤ 1 :=
      rank_le_one (by simpa using hcode) (by simpa using hmsg) (by simp)
    obtain ⟨hk2, hkl, -⟩ := extractToEol_bounds he
    rw [bufOf_length] at hkl
    unfold meas
    simp only at hr1 ⊢
    omega
  · subst hp
    have hrk : p.rank = 1 := by unfold HttpParser.rank; rw [hm]
    obtain ⟨-, -, hcode, hmsg, heh, -, -⟩ := mode_body_iff.mp hm
    have hr0 : ({ p with
        parsed := { p.parsed with body := some ((bufOf p).take n) }
        pos := p.pos + (bufOf p).length } : HttpParser).rank = 0 :=
      rank_eq_zero (by simpa using hcode) (by simpa using hmsg) (by simpa using heh)
        (by simp)
    unfold meas
    simp only at hr0 ⊢
    rw [hr0, hrk, bufOf_length]
    omega

/-! ### The cursor invariant is preserved -/

theorem next_cont_posInv {p p' : HttpParser} (hpos : posInv p) (h : next p = .cont p') :
    posInv p' := by
  unfold posInv at hpos ⊢
  rcases next_cont_inv h with
    ⟨v, hm, hcs, hp⟩ | ⟨line, k, hm, he, hp⟩ | ⟨line, k, key, val, hm, he, hs, hp⟩ |
    ⟨k, hm, he, hrb, hp⟩ | ⟨k, lenStr, n, hm, he, hrb, hte, hcl, hn, hp⟩ |
    ⟨n, hm, hcn, hl, hp⟩
  · subst hp
    have h13 : 13 ≤ (bufOf p).length := codeStep_ok_length hcs
    rw [bufOf_length] at h13
    simp only
    omega
  · subst hp
    obtain ⟨-, hkl, -⟩ := extractToEol_bounds he
    rw [bufOf_length] at hkl
    simp only
    omega
  · subst hp
    obtain ⟨-, hkl, -⟩ := extractToEol_bounds he
    rw [bufOf_length] at hkl
    simp only
    omega
  · subst hp
    obtain ⟨-, hkl, -⟩ := extractToEol_bounds he
    rw [bufOf_length] at hkl
    simp only
    omega
  · subst hp
    obtain ⟨-, hkl, -⟩ := extractToEol_bounds he
    rw [bufOf_length] at hkl
    simp only
    omega
  · subst hp
    rw [bufOf_length]
    simp only
    omega

theorem next_fail_posInv {p p' : HttpParser} {m : String} (hpos : posInv p)
    (h : next p = .fail p' m) : posInv p' := by
  rcases next_fail_inv h with
    ⟨m0, hm, hcs, hmsg, hp⟩ | ⟨line, k, hm, he, hs, hne, hmsg, hp⟩ |
    ⟨k, lenStr, hm, he, hrb, hte, hcl, hn, hmsg, hp⟩ |
    ⟨k, hm, he, hrb, hte, hcl, hmsg, hp⟩ | ⟨hm, hcn, hmsg, hp⟩ <;>
    subst hp <;> exact hpos

theorem next_crash_posInv {p p' : HttpParser} (hpos : posInv p)
    (h : next p = .crash p') : posInv p' := by
  obtain ⟨k, te, hm, he, hrb, hte, hp⟩ := next_crash_inv h
  subst hp
  exact hpos

/-! ### The drive loop: fuel does not matter once it covers the measure -/

theorem next_stop_of_meas_zero {p : HttpParser} (h : meas p = 0) : next p = .stop :=
  next_eq_stop_of_rank_zero (by unfold meas at h; omega)

theorem runFuel_irrel :
    ∀ (f g : Nat) (p : HttpParser), meas p ≤ f → meas p ≤ g → runFuel f p = runFuel g p := by
  intro f
  induction f with
  | zero =>
    intro g p hf hg
    have hs : next p = .stop := next_stop_of_meas_zero (by omega)
    cases g with
    | zero => rfl
    | succ g => simp [runFuel, hs]
  | succ f ih =>
    intro g p hf hg
    cases g with
    | zero =>
      have hs : next p = .stop := next_stop_of_meas_zero (by omega)
      simp [runFuel, hs]
    | succ g =>
      cases hn : next p with
      | cont p' =>
        have hlt := next_cont_meas hn
        simp only [runFuel, hn]
        exact ih g p' (by omega) (by omega)
      | stop => simp [runFuel, hn]
      | fail p' m => simp [runFuel, hn]
      | crash p' => simp [runFuel, hn]

theorem run_stop {p : HttpParser} (h : next p = .stop) : run p = (p, .ok) := by
  unfold run
  cases hm : meas p with
  | zero => rfl
  | succ m => simp [runFuel, h]

theorem run_cont {p p' : HttpParser} (h : next p = .cont p') : run p = run p' := by
  have hlt := next_cont_meas h
  unfold run
  cases hm : meas p with
  | zero => exact absurd (hm ▸ hlt) (Nat.not_lt_zero _)
  | succ m =>
    simp only [runFuel, h]
    exact runFuel_irrel m (meas p') p' (by omega) (le_refl _)

theorem run_fail {p p' : HttpParser} {m : String} (h : next p = .fail p' m) :
    run p = (p', .err m) := by
  unfold run
  cases hm : meas p with
  | zero =>
    have hs := next_stop_of_meas_zero hm
    rw [h] at hs
    simp at hs
  | succ f => simp [runFuel, h]

theorem run_crash {p p' : HttpParser} (h : next p = .crash p') :
    run p = (p', .crash) := by
  unfold run
  cases hm : meas p with
  | zero =>
    have hs := next_stop_of_meas_zero hm
    rw [h] at hs
    simp at hs
  | succ f => simp [runFuel, h]

theorem run_posInv :
    ∀ (n : Nat) (p : HttpParser), meas p ≤ n → posInv p → posInv (run p).1 := by
  intro n
  induction n with
  | zero =>
    intro p h hp
    rw [run_stop (next_stop_of_meas_zero (by omega))]
    exact hp
  | succ n ih =>
    intro p h hp
    cases hn : next p with
    | cont p' =>
      rw [run_cont hn]
      exact ih p' (by have := next_cont_meas hn; omega) (next_cont_posInv hp hn)
    | stop =>
      rw [run_stop hn]
      exact hp
    | fail p' m =>
      rw [run_fail hn]
      exact next_fail_posInv hp hn
    | crash p' =>
      rw [run_crash hn]
      exact next_crash_posInv hp hn

/-! ### Extension of one step by extra buffered bytes -/

theorem push_nil (p : HttpParser) : p.push [] = p := by
  simp [HttpParser.push]

theorem push_push (p : HttpParser) (a b : List Char) :
    (p.push a).push b = p.push (a ++ b) := by
  simp [HttpParser.push]

theorem posInv_push {p : HttpParser} (hp : posInv p) (s : List Char) :
    posInv (p.push s) := by
  unfold posInv at hp ⊢
  unfold HttpParser.push
  simp only [List.length_append]
  omega

theorem parse_posInv {p : HttpParser} (hp : posInv p) (s : List Char) :
    posInv (p.parse s).1 := by
  unfold HttpParser.parse
  exact run_posInv _ _ (le_refl _) (posInv_push hp s)

theorem parse_stuck {p : HttpParser} (s : List Char)
    (h : p.mode = .done ∨ p.mode = .error ∨ p.mode = .crashed) :
    p.parse s = (p.push s, .ok) := by
  unfold HttpParser.parse
  apply run_stop
  rcases h with h | h | h
  · exact next_stop_done (by rw [mode_push]; exact h)
  · exact next_stop_error (by rw [mode_push]; exact h)
  · exact next_stop_crashed (by rw [mode_push]; exact h)

theorem parse_of_error {p : HttpParser} (s : List Char) (h : p.error = true) :
    p.parse s = (p.push s, .ok) := by
  apply parse_stuck
  by_cases hc : p.crashed
  · exact Or.inr (Or.inr (mode_crashed_iff.mpr hc))
  · exact Or.inr (Or.inl (mode_error_iff.mpr ⟨by simpa using hc, h⟩))

theorem feedList_of_error :
    ∀ (ss : List (List Char)) (q : HttpParser), q.error = true →
      feedList q ss = q.push ss.join := by
  intro ss
  induction ss with
  | nil =>
    intro q hq
    show q = q.push [].join
    rw [show ([] : List (List Char)).join = [] from rfl, push_nil]
  | cons s ss ih =>
    intro q hq
    show feedList (q.parse s).1 ss = q.push ((s :: ss).join)
    rw [parse_of_error s hq]
    have : (q.push s).error = true := hq
    rw [ih (q.push s) this, push_push]
    simp

/-! ### The population invariant holds in every reachable state -/

theorem next_cont_StructInv {p p' : HttpParser} (hi : StructInv p)
    (h : next p = .cont p') : StructInv p' := by
  obtain ⟨i1, i2, i3⟩ := hi
  rcases next_cont_inv h with
    ⟨v, hm, hcs, hp⟩ | ⟨line, k, hm, he, hp⟩ | ⟨line, k, key, val, hm, he, hs, hp⟩ |
    ⟨k, hm, he, hrb, hp⟩ | ⟨k, lenStr, n, hm, he, hrb, hte, hcl, hn, hp⟩ |
    ⟨n, hm, hcn, hl, hp⟩ <;> subst hp
  · refine ⟨fun _ => by simp, fun he => ⟨?_, by simp⟩, by simpa using i3⟩
    have h2 := i2 (by simpa using he)
    simpa using h2.1
  · have hcode := (mode_msg_iff.mp hm).2.2.1
    exact ⟨fun _ => by simpa using hcode, fun he => ⟨by simp, by simpa using hcode⟩,
      by simpa using i3⟩
  · exact ⟨by simpa using i1, by simpa using i2, by simpa using i3⟩
  · obtain ⟨-, -, hcode, hmsg, -⟩ := mode_header_iff.mp hm
    exact ⟨by simpa using i1, fun _ => ⟨by simpa using hmsg, by simpa using hcode⟩,
      fun _ => rfl⟩
  · obtain ⟨-, -, hcode, hmsg, -⟩ := mode_header_iff.mp hm
    exact ⟨by simpa using i1, fun _ => ⟨by simpa using hmsg, by simpa using hcode⟩,
      fun _ => rfl⟩
  · have heh := (mode_body_iff.mp hm).2.2.2.2.1
    exact ⟨by simpa using i1, by simpa using i2, fun _ => by simpa using heh⟩

theorem next_fail_StructInv {p p' : HttpParser} {m : String} (hi : StructInv p)
    (h : next p = .fail p' m) : StructInv p' := by
  obtain ⟨i1, i2, i3⟩ := hi
  rcases next_fail_inv h with
    ⟨m0, hm, hcs, hmsg, hp⟩ | ⟨line, k, hm, he, hs, hne, hmsg, hp⟩ |
    ⟨k, lenStr, hm, he, hrb, hte, hcl, hn, hmsg, hp⟩ |
    ⟨k, hm, he, hrb, hte, hcl, hmsg, hp⟩ | ⟨hm, hcn, hmsg, hp⟩ <;> subst hp
  · exact ⟨i1, i2, i3⟩
  · exact ⟨i1, i2, i3⟩
  · obtain ⟨-, -, hcode, hmsg2, -⟩ := mode_header_iff.mp hm
    exact ⟨by simpa using i1, fun _ => ⟨by simpa using hmsg2, by simpa using hcode⟩,
      fun _ => rfl⟩
  · obtain ⟨-, -, hcode, hmsg2, -⟩ := mode_header_iff.mp hm
    exact ⟨by simpa using i1, fun _ => ⟨by simpa using hmsg2, by simpa using hcode⟩,
      fun _ => rfl⟩
  · exact ⟨i1, i2, i3⟩

theorem next_crash_StructInv {p p' : HttpParser} (hi : StructInv p)
    (h : next p = .crash p') : StructInv p' := by
  obtain ⟨i1, i2, i3⟩ := hi
  obtain ⟨k, te, hm, he, hrb, hte, hp⟩ := next_crash_inv h
  subst hp
  obtain ⟨-, -, hcode, hmsg, -⟩ := mode_header_iff.mp hm
  exact ⟨by simpa using i1, fun _ => ⟨by simpa using hmsg, by simpa using hcode⟩,
    fun _ => rfl⟩

theorem run_StructInv :
    ∀ (n : Nat) (p : HttpParser), meas p ≤ n → StructInv p → StructInv (run p).1 := by
  intro n
  induction n with
  | zero =>
    intro p h hi
    rw [run_stop (next_stop_of_meas_zero (by omega))]
    exact hi
  | succ n ih =>
    intro p h hi
    cases hn : next p with
    | cont p' =>
      rw [run_cont hn]
      exact ih p' (by have := next_cont_meas hn; omega) (next_cont_StructInv hi hn)
    | stop =>
      rw [run_stop hn]
      exact hi
    | fail p' m =>
      rw [run_fail hn]
      exact next_fail_StructInv hi hn
    | crash p' =>
      rw [run_crash hn]
      exact next_crash_StructInv hi hn

theorem reachable_StructInv {p : HttpParser} (h : Reachable p) : StructInv p := by
  induction h with
  | init rb => exact ⟨by simp [HttpParser.init], by simp [HttpParser.init],
      by simp [HttpParser.init]⟩
  | eof q hq ih => exact ih
  | parse q s hq ih =>
    unfold HttpParser.parse
    exact run_StructInv _ _ (le_refl _) ih

theorem reachable_posInv {p : HttpParser} (h : Reachable p) : posInv p := by
  induction h with
  | init rb => exact Nat.le_refl 0
  | eof q hq ih => exact ih
  | parse q s hq ih => exact parse_posInv ih s

/-! ### Computation of the status-line step on shaped input -/

theorem expectDigits_of_digits {l : List Char} (h : ∀ c ∈ l, isDigitC c = true) :
    expectDigits l = none := expectDigits_eq_none.mpr h

theorem expectDigits_some_of_bad {l : List Char}
    (h : ∃ c ∈ l, isDigitC c = false) :
    expectDigits l = some "HTTP code must be 3 digits" := by
  cases hm : expectDigits l with
  | none =>
    obtain ⟨c, hc, hb⟩ := h
    have := expectDigits_eq_none.mp hm c hc
    rw [this] at hb
    simp at hb
  | some m => rw [expectDigits_eq_some hm]

theorem codeStep_success (d1 d2 d3 : Char) (t : List Char)
    (h1 : isDigitC d1 = true) (h2 : isDigitC d2 = true) (h3 : isDigitC d3 = true) :
    codeStep (httpSig ++ d1 :: d2 :: d3 :: ' ' :: t) =
      .ok (Int.ofNat (digitsVal [d1, d2, d3])) := by
  have hsig9 : httpSig.length = 9 := rfl
  unfold codeStep
  have hlen : (httpSig ++ d1 :: d2 :: d3 :: ' ' :: t).length = 13 + t.length := by
    simp [hsig9]
    omega
  rw [if_neg (by omega)]
  rw [List.take_append_of_le_length (by omega), if_neg (by decide)]
  rw [List.drop_append_of_le_length (by omega)]
  rw [show httpSig.drop 9 = [] from rfl, List.nil_append]
  have htk : (d1 :: d2 :: d3 :: ' ' :: t).take 3 = [d1, d2, d3] := rfl
  rw [htk, expectDigits_of_digits (by
    intro c hc
    simp only [List.mem_cons, List.not_mem_nil, or_false] at hc
    rcases hc with rfl | rfl | rfl
    · exact h1
    · exact h2
    · exact h3)]
  rw [if_neg (by simp)]
  rw [show (d1 :: d2 :: d3 :: ' ' :: t).drop 3 = ' ' :: t from rfl]
  rw [if_neg (by simp)]
  rw [if_neg (by simp)]

theorem digitsVal_triple (d1 d2 d3 : Char) :
    digitsVal [d1, d2, d3] =
      100 * (d1.toNat - 48) + 10 * (d2.toNat - 48) + (d3.toNat - 48) := by
  unfold digitsVal
  simp [List.foldl]
  ring

theorem codeStep_fatal_prefix {s : List Char} (h9 : ¬s.length < 9)
    (hsig : s.take 9 ≠ httpSig) : codeStep s = .fatal "Comparison failed" := by
  unfold codeStep
  rw [if_neg h9, if_pos hsig]

theorem codeStep_fatal_digits {s : List Char} (hsig : s.take 9 = httpSig)
    (hbad : ∃ c ∈ (s.drop 9).take 3, isDigitC c = false) :
    codeStep s = .fatal "HTTP code must be 3 digits" := by
  have h9 : ¬s.length < 9 := by
    have := congrArg List.length hsig
    simp only [List.length_take] at this
    have : min 9 s.length = 9 := by
      rw [this]
      rfl
    omega
  unfold codeStep
  rw [if_neg h9, if_neg (by simp [hsig]), expectDigits_some_of_bad hbad]

theorem codeStep_eos_short {s : List Char} (hlen : s.length < 13)
    (hok : s.length < 9 ∨ (s.take 9 = httpSig ∧ ∀ c ∈ (s.drop 9).take 3, isDigitC c = true)) :
    codeStep s = .eos := by
  unfold codeStep
  by_cases h9 : s.length < 9
  · rw [if_pos h9]
  rcases hok with h | ⟨hsig, hdig⟩
  · exact absurd h h9
  rw [if_neg h9, if_neg (by simp [hsig]), expectDigits_of_digits hdig]
  by_cases h3 : (s.drop 9).length < 3
  · rw [if_pos h3]
  rw [if_neg h3]
  rw [if_pos (by
    simp only [List.length_drop] at h3 ⊢
    omega)]

theorem mode_init (rb : Bool) : (HttpParser.init rb).mode = .code :=
  mode_code_iff.mpr ⟨rfl, rfl, rfl⟩

theorem bufOf_init_push (rb : Bool) (s : List Char) :
    bufOf ((HttpParser.init rb).push s) = s := by
  simp [bufOf, HttpParser.push, HttpParser.init]

/-! ### Byte-level model: the lossy decoder -/

theorem utf8LossyF_nil : ∀ f, utf8LossyF f [] = [] := by
  intro f
  cases f <;> rfl

theorem utf8Decode1_len (b : Nat) (bs : List Nat) :
    (utf8Decode1 b bs).2.length ≤ bs.length := by
  unfold utf8Decode1
  repeat' split
  all_goals simp_all
  all_goals omega

theorem utf8LossyF_fuel :
    ∀ (f g : Nat) (bs : List Nat), bs.length ≤ f → bs.length ≤ g →
      utf8LossyF f bs = utf8LossyF g bs := by
  intro f
  induction f with
  | zero =>
    intro g bs hf hg
    have hnil : bs = [] := List.eq_nil_of_length_eq_zero (by omega)
    subst hnil
    rw [utf8LossyF_nil, utf8LossyF_nil]
  | succ f ih =>
    intro g bs hf hg
    cases bs with
    | nil => rw [utf8LossyF_nil, utf8LossyF_nil]
    | cons b bs1 =>
      cases g with
      | zero => simp at hg
      | succ g1 =>
        have hstepf : utf8LossyF (f + 1) (b :: bs1)
            = (utf8Decode1 b bs1).1 :: utf8LossyF f (utf8Decode1 b bs1).2 := rfl
        have hstepg : utf8LossyF (g1 + 1) (b :: bs1)
            = (utf8Decode1 b bs1).1 :: utf8LossyF g1 (utf8Decode1 b bs1).2 := rfl
        have hlen := utf8Decode1_len b bs1
        simp only [List.length_cons] at hf hg
        rw [hstepf, hstepg, ih g1 (utf8Decode1 b bs1).2 (by omega) (by omega)]

/-! ### Byte-level model: ASCII facts -/

theorem length_le_strLen (l : List Char) : l.length ≤ strLen l := by
  induction l with
  | nil => exact Nat.le_refl 0
  | cons c t ih =>
    have := Char.utf8Size_pos c
    simp only [List.length_cons, strLen]
    omega

theorem bMode_congr {p q : BHttpParser} (h1 : p.crashed = q.crashed) (h2 : p.error = q.error)
    (h3 : p.parsed.code = q.parsed.code) (h4 : p.parsed.msg = q.parsed.msg)
    (h5 : p.parsed.body = q.parsed.body) (h6 : p.end_headers = q.end_headers)
    (h7 : p.read_body = q.read_body) : p.mode = q.mode := by
  unfold BHttpParser.mode
  rw [h1, h2, h3, h4, h5, h6, h7]

theorem bRank_congr {p q : BHttpParser} (h : p.mode = q.mode) : p.rank = q.rank := by
  unfold BHttpParser.rank
  rw [h]

theorem bMode_code_iff {p : BHttpParser} :
    p.mode = .code ↔ p.crashed = false ∧ p.error = false ∧ p.parsed.code = none := by
  unfold BHttpParser.mode
  split_ifs <;> simp_all [Option.isNone_iff_eq_none]

theorem bMode_msg_iff {p : BHttpParser} :
    p.mode = .msg ↔ p.crashed = false ∧ p.error = false ∧ p.parsed.code ≠ none ∧
      p.parsed.msg = none := by
  unfold BHttpParser.mode
  split_ifs <;> simp_all [Option.isNone_iff_eq_none]

theorem bMode_header_iff {p : BHttpParser} :
    p.mode = .header ↔ p.crashed = false ∧ p.error = false ∧ p.parsed.code ≠ none ∧
      p.parsed.msg ≠ none ∧ p.end_headers = false := by
  unfold BHttpParser.mode
  split_ifs <;> simp_all [Option.isNone_iff_eq_none]

theorem bMode_body_iff {p : BHttpParser} :
    p.mode = .body ↔ p.crashed = false ∧ p.error = false ∧ p.parsed.code ≠ none ∧
      p.parsed.msg ≠ none ∧ p.end_headers = true ∧ p.read_body = true ∧
      p.parsed.body = none := by
  unfold BHttpParser.mode
  split_ifs <;> simp_all [Option.isNone_iff_eq_none]

theorem bRank_le_three {p : BHttpParser} (h : p.parsed.code ≠ none) : p.rank ≤ 3 := by
  unfold BHttpParser.rank
  cases hm : p.mode <;> simp_all [bMode_code_iff]

theorem bRank_le_two {p : BHttpParser} (h1 : p.parsed.code ≠ none)
    (h2 : p.parsed.msg ≠ none) : p.rank ≤ 2 := by
  unfold BHttpParser.rank
  cases hm : p.mode <;> simp_all [bMode_code_iff, bMode_msg_iff]

theorem bRank_le_one {p : BHttpParser} (h1 : p.parsed.code ≠ none)
    (h2 : p.parsed.msg ≠ none) (h3 : p.end_headers = true) : p.rank ≤ 1 := by
  unfold BHttpParser.rank
  cases hm : p.mode <;> simp_all [bMode_code_iff, bMode_msg_iff, bMode_header_iff]

theorem bRank_eq_zero {p : BHttpParser} (h1 : p.parsed.code ≠ none)
    (h2 : p.parsed.msg ≠ none) (h3 : p.end_headers = true)
    (h4 : p.parsed.body ≠ none) : p.rank = 0 := by
  unfold BHttpParser.rank
  cases hm : p.mode <;>
    simp_all [bMode_code_iff, bMode_msg_iff, bMode_header_iff, bMode_body_iff]

theorem bNext_eq_stop_of_rank_zero {p : BHttpParser} (h : p.rank = 0) : bNext p = .stop := by
  unfold BHttpParser.rank at h
  unfold bNext
  cases hm : p.mode <;> simp_all

/-! ### Byte-level model: branchwise description of one step -/

theorem bNext_stop_done {p : BHttpParser} (h : p.mode = .done) : bNext p = .stop := by
  unfold bNext
  rw [h]

theorem bNext_stop_error {p : BHttpParser} (h : p.mode = .error) : bNext p = .stop := by
  unfold bNext
  rw [h]

theorem bNext_stop_crashed {p : BHttpParser} (h : p.mode = .crashed) : bNext p = .stop := by
  unfold bNext
  rw [h]

theorem bNext_code_eos {p : BHttpParser} (h : p.mode = .code)
    (hc : bCodeStep (bBufOf p) = .eos) : bNext p = .stop := by
  unfold bNext
  rw [h, hc]

theorem bNext_code_fatal {p : BHttpParser} {m : String} (h : p.mode = .code)
    (hc : bCodeStep (bBufOf p) = .fatal m) :
    bNext p = .fail { p with error := true } (errMsg m) := by
  unfold bNext
  rw [h, hc]

theorem bNext_code_ok {p : BHttpParser} {v : Int} (h : p.mode = .code)
    (hc : bCodeStep (bBufOf p) = .ok v) :
    bNext p = .cont { p with
                      parsed := { p.parsed with code := some v }
                      pos := p.pos + strideOf 13 (bBufOf p) } := by
  unfold bNext
  rw [h, hc]

theorem bNext_msg_eos {p : BHttpParser} (h : p.mode = .msg)
    (he : extractToEol (bBufOf p) = none) : bNext p = .stop := by
  unfold bNext
  rw [h, he]

theorem bNext_msg_some {p : BHttpParser} {line : List Char} {k : Nat} (h : p.mode = .msg)
    (he : extractToEol (bBufOf p) = some (line, k)) :
    bNext p = .cont { p with
                      parsed := { p.parsed with msg := some line }
                      pos := p.pos + strideOf (strLen ((bBufOf p).take k)) (bBufOf p) } := by
  unfold bNext
  rw [h, he]

theorem bNext_header_eos {p : BHttpParser} (h : p.mode = .header)
    (he : extractToEol (bBufOf p) = none) : bNext p = .stop := by
  unfold bNext
  rw [h, he]

theorem bNext_header_pair {p : BHttpParser} {line key val : List Char} {k : Nat}
    (h : p.mode = .header) (he : extractToEol (bBufOf p) = some (line, k))
    (hs : splitOnceCS line = some (key, val)) :
    bNext p = .cont { p with
                      parsed := { p.parsed with
                                  headers := insertH p.parsed.headers (key.map Char.toLower) val }
                      pos := p.pos + strideOf (strLen ((bBufOf p).take k)) (bBufOf p) } := by
  unfold bNext
  simp only [h, he, hs]

theorem bNext_header_invalid {p : BHttpParser} {line : List Char} {k : Nat}
    (h : p.mode = .header) (he : extractToEol (bBufOf p) = some (line, k))
    (hs : splitOnceCS line = none) (hne : line ≠ []) :
    bNext p = .fail { p with error := true }
      (errMsg ("Invalid HTTP header: " ++ String.mk line)) := by
  unfold bNext
  cases line with
  | nil => exact absurd rfl hne
  | cons c t =>
    simp only [h, he, hs, List.isEmpty_cons]
    simp

theorem bNext_header_blank_nobody {p : BHttpParser} {k : Nat}
    (h : p.mode = .header) (he : extractToEol (bBufOf p) = some ([], k))
    (hrb : p.read_body = false) :
    bNext p = .cont { p with
                      end_headers := true
                      pos := p.pos + strideOf (strLen ((bBufOf p).take k)) (bBufOf p) } := by
  unfold bNext
  simp only [h, he]
  simp [hrb, splitOnceCS]

theorem bNext_header_blank_te {p : BHttpParser} {k : Nat} {te : List Char}
    (h : p.mode = .header) (he : extractToEol (bBufOf p) = some ([], k))
    (hrb : p.read_body = true)
    (hte : getH p.parsed.headers teKey = some te) :
    bNext p = .crash { p with end_headers := true, crashed := true } := by
  unfold bNext
  simp only [h, he]
  simp [hrb, hte, splitOnceCS]

theorem bNext_header_blank_cl_ok {p : BHttpParser} {k : Nat} {lenStr : List Char} {n : Nat}
    (h : p.mode = .header) (he : extractToEol (bBufOf p) = some ([], k))
    (hrb : p.read_body = true)
    (hte : getH p.parsed.headers teKey = none)
    (hcl : getH p.parsed.headers clKey = some lenStr)
    (hn : parseUsize lenStr = some n) :
    bNext p = .cont { p with
                      end_headers := true
                      content_length := some n
                      pos := p.pos + strideOf (strLen ((bBufOf p).take k)) (bBufOf p) } := by
  unfold bNext
  simp only [h, he]
  simp [hrb, hte, hcl, hn, splitOnceCS]

theorem bNext_header_blank_cl_bad {p : BHttpParser} {k : Nat} {lenStr : List Char}
    (h : p.mode = .header) (he : extractToEol (bBufOf p) = some ([], k))
    (hrb : p.read_body = true)
    (hte : getH p.parsed.headers teKey = none)
    (hcl : getH p.parsed.headers clKey = some lenStr)
    (hn : parseUsize lenStr = none) :
    bNext p = .fail { p with end_headers := true, error := true }
      (errMsg ("Error parsing content length: " ++ String.mk lenStr)) := by
  unfold bNext
  simp only [h, he]
  simp [hrb, hte, hcl, hn, splitOnceCS]

theorem bNext_header_blank_missing {p : BHttpParser} {k : Nat}
    (h : p.mode = .header) (he : extractToEol (bBufOf p) = some ([], k))
    (hrb : p.read_body = true)
    (hte : getH p.parsed.headers teKey = none)
    (hcl : getH p.parsed.headers clKey = none) :
    bNext p = .fail { p with end_headers := true, error := true }
      (errMsg "Missing content length specifier") := by
  unfold bNext
  simp only [h, he]
  simp [hrb, hte, hcl, splitOnceCS]

theorem bNext_body_nolen {p : BHttpParser} (h : p.mode = .body)
    (hc : p.content_length = none) :
    bNext p = .fail { p with error := true } (errMsg "Missing content length") := by
  unfold bNext
  rw [h, hc]

theorem bNext_body_eos {p : BHttpParser} {n : Nat} (h : p.mode = .body)
    (hc : p.content_length = some n) (hl : strLen (bBufOf p) < n) : bNext p = .stop := by
  unfold bNext
  simp only [h, hc]
  rw [if_pos hl]

theorem bNext_body_ok {p : BHttpParser} {n : Nat} {body : List Char} (h : p.mode = .body)
    (hc : p.content_length = some n) (hl : ¬strLen (bBufOf p) < n)
    (ht : takeBytes (bBufOf p) n = some body) :
    bNext p = .cont { p with
                      parsed := { p.parsed with body := some body }
                      pos := p.pos + strLen (bBufOf p) } := by
  unfold bNext
  simp only [h, hc]
  rw [if_neg hl]
  simp only [ht]

theorem bNext_body_crash {p : BHttpParser} {n : Nat} (h : p.mode = .body)
    (hc : p.content_length = some n) (hl : ¬strLen (bBufOf p) < n)
    (ht : takeBytes (bBufOf p) n = none) :
    bNext p = .crash { p with crashed := true } := by
  unfold bNext
  simp only [h, hc]
  rw [if_neg hl]
  simp only [ht]

/-! ### Byte-level model: inversion of a successful step -/

theorem bNext_cont_inv {p p' : BHttpParser} (h : bNext p = .cont p') :
    (∃ v, p.mode = .code ∧ bCodeStep (bBufOf p) = .ok v ∧
      p' = { p with parsed := { p.parsed with code := some v }
                    pos := p.pos + strideOf 13 (bBufOf p) }) ∨
    (∃ line k, p.mode = .msg ∧ extractToEol (bBufOf p) = some (line, k) ∧
      p' = { p with parsed := { p.parsed with msg := some line }
                    pos := p.pos + strideOf (strLen ((bBufOf p).take k)) (bBufOf p) }) ∨
    (∃ line k key val, p.mode = .header ∧ extractToEol (bBufOf p) = some (line, k) ∧
      splitOnceCS line = some (key, val) ∧
      p' = { p with
             parsed := { p.parsed with
                         headers := insertH p.parsed.headers (key.map Char.toLower) val }
             pos := p.pos + strideOf (strLen ((bBufOf p).take k)) (bBufOf p) }) ∨
    (∃ k, p.mode = .header ∧ extractToEol (bBufOf p) = some ([], k) ∧ p.read_body = false ∧
      p' = { p with end_headers := true
                    pos := p.pos + strideOf (strLen ((bBufOf p).take k)) (bBufOf p) }) ∨
    (∃ k lenStr n, p.mode = .header ∧ extractToEol (bBufOf p) = some ([], k) ∧
      p.read_body = true ∧ getH p.parsed.headers teKey = none ∧
      getH p.parsed.headers clKey = some lenStr ∧ parseUsize lenStr = some n ∧
      p' = { p with end_headers := true, content_length := some n
                    pos := p.pos + strideOf (strLen ((bBufOf p).take k)) (bBufOf p) }) ∨
    (∃ n body, p.mode = .body ∧ p.content_length = some n ∧ ¬strLen (bBufOf p) < n ∧
      takeBytes (bBufOf p) n = some body ∧
      p' = { p with parsed := { p.parsed with body := some body }
                    pos := p.pos + strLen (bBufOf p) }) := by
  cases hm : p.mode with
  | done => rw [bNext_stop_done hm] at h; simp at h
  | error => rw [bNext_stop_error hm] at h; simp at h
  | crashed => rw [bNext_stop_crashed hm] at h; simp at h
  | code =>
    cases hcs : bCodeStep (bBufOf p) with
    | eos => rw [bNext_code_eos hm hcs] at h; simp at h
    | fatal m => rw [bNext_code_fatal hm hcs] at h; simp at h
    | ok v =>
      rw [bNext_code_ok hm hcs] at h
      injection h with h1
      exact Or.inl ⟨v, rfl, rfl, h1.symm⟩
  | msg =>
    cases he : extractToEol (bBufOf p) with
    | none => rw [bNext_msg_eos hm he] at h; simp at h
    | some r =>
      obtain ⟨line, k⟩ := r
      rw [bNext_msg_some hm he] at h
      injection h with h1
      exact Or.inr (Or.inl ⟨line, k, rfl, rfl, h1.symm⟩)
  | header =>
    cases he : extractToEol (bBufOf p) with
    | none => rw [bNext_header_eos hm he] at h; simp at h
    | some r =>
      obtain ⟨line, k⟩ := r
      cases hs : splitOnceCS line with
      | some kv =>
        obtain ⟨key, val⟩ := kv
        rw [bNext_header_pair hm he hs] at h
        injection h with h1
        exact Or.inr (Or.inr (Or.inl ⟨line, k, key, val, rfl, rfl, hs, h1.symm⟩))
      | none =>
        cases line with
        | cons c t =>
          rw [bNext_header_invalid hm he hs (by simp)] at h
          simp at h
        | nil =>
          cases hrb : p.read_body with
          | false =>
            rw [bNext_header_blank_nobody hm he hrb] at h
            injection h with h1
            rw [hrb] at h1
            exact Or.inr (Or.inr (Or.inr (Or.inl ⟨k, rfl, rfl, rfl, h1.symm⟩)))
          | true =>
            cases hte : getH p.parsed.headers teKey with
            | some te => rw [bNext_header_blank_te hm he hrb hte] at h; simp at h
            | none =>
              cases hcl : getH p.parsed.headers clKey with
              | none => rw [bNext_header_blank_missing hm he hrb hte hcl] at h; simp at h
              | some lenStr =>
                cases hn : parseUsize lenStr with
                | none => rw [bNext_header_blank_cl_bad hm he hrb hte hcl hn] at h; simp at h
                | some n =>
                  rw [bNext_header_blank_cl_ok hm he hrb hte hcl hn] at h
                  injection h with h1
                  rw [hrb] at h1
                  exact Or.inr (Or.inr (Or.inr (Or.inr (Or.inl
                    ⟨k, lenStr, n, rfl, rfl, rfl, rfl, rfl, hn, h1.symm⟩))))
  | body =>
    cases hcn : p.content_length with
    | none => rw [bNext_body_nolen hm hcn] at h; simp at h
    | some n =>
      by_cases hl : strLen (bBufOf p) < n
      · rw [bNext_body_eos hm hcn hl] at h; simp at h
      · cases ht : takeBytes (bBufOf p) n with
        | none => rw [bNext_body_crash hm hcn hl ht] at h; simp at h
        | some body =>
          rw [bNext_body_ok hm hcn hl ht] at h
          injection h with h1
          rw [hcn] at h1
          exact Or.inr (Or.inr (Or.inr (Or.inr (Or.inr ⟨n, body, rfl, rfl, hl, ht, h1.symm⟩))))

/-! ### Byte-level model: the termination measure decreases -/

theorem strideOf_ge_one {buf : List Char} {s : Nat} (hs : 1 ≤ s) (hb : 1 ≤ buf.length) :
    1 ≤ strideOf s buf := by
  unfold strideOf
  split_ifs with h
  · exact hs
  · exact le_trans hb (length_le_strLen buf)

theorem bBufOf_nonnil_pos {p : BHttpParser} (h : bBufOf p ≠ []) :
    p.pos < p.combined.length := by
  by_contra hc
  push_neg at hc
  apply h
  unfold bBufOf
  rw [List.drop_eq_nil_of_le hc]
  rfl

theorem bNext_cont_meas {p p' : BHttpParser} (h : bNext p = .cont p') :
    bMeas p' < bMeas p := by
  rcases bNext_cont_inv h with
    ⟨v, hm, hcs, hp⟩ | ⟨line, k, hm, he, hp⟩ | ⟨line, k, key, val, hm, he, hs, hp⟩ |
    ⟨k, hm, he, hrb, hp⟩ | ⟨k, lenStr, n, hm, he, hrb, hte, hcl, hn, hp⟩ |
    ⟨n, body, hm, hcn, hl, ht, hp⟩
  · subst hp
    have hr4 : p.rank = 4 := by unfold BHttpParser.rank; rw [hm]
    have hr3 : ({ p with
        parsed := { p.parsed with code := some v }
        pos := p.pos + strideOf 13 (bBufOf p) } : BHttpParser).rank ≤ 3 :=
      bRank_le_three (by simp)
    unfold bMeas
    simp only at hr3 ⊢
    omega
  · subst hp
    have hrk : p.rank = 3 := by unfold BHttpParser.rank; rw [hm]
    have hcode : p.parsed.code ≠ none := (bMode_msg_iff.mp hm).2.2.1
    have hr2 : ({ p with
        parsed := { p.parsed with msg := some line }
        pos := p.pos + strideOf (strLen ((bBufOf p).take k)) (bBufOf p) } : BHttpParser).rank ≤ 2 :=
      bRank_le_two (by simpa using hcode) (by simp)
    unfold bMeas
    simp only at hr2 ⊢
    omega
  · subst hp
    have hrk : p.rank = 2 := by unfold BHttpParser.rank; rw [hm]
    have hmode : ({ p with
        parsed := { p.parsed with
                    headers := insertH p.parsed.headers (key.map Char.toLower) val }
        pos := p.pos + strideOf (strLen ((bBufOf p).take k)) (bBufOf p) } : BHttpParser).mode
          = p.mode :=
      bMode_congr (by simp) (by simp) (by simp) (by simp) (by simp) (by simp) (by simp)
    have hr2 : ({ p with
        parsed := { p.parsed with
                    headers := insertH p.parsed.headers (key.map Char.toLower) val }
        pos := p.pos + strideOf (strLen ((bBufOf p).take k)) (bBufOf p) } : BHttpParser).rank
          = 2 := by
      rw [bRank_congr hmode, hrk]
    obtain ⟨hk2, hkl, -⟩ := extractToEol_bounds he
    have hblen : 1 ≤ (bBufOf p).length := by omega
    have hst : 1 ≤ strideOf (strLen ((bBufOf p).take k)) (bBufOf p) := by
      apply strideOf_ge_one _ hblen
      calc 1 ≤ min k (bBufOf p).length := by omega
        _ = ((bBufOf p).take k).length := (List.length_take k (bBufOf p)).symm
        _ ≤ strLen ((bBufOf p).take k) := length_le_strLen _
    have hpos : p.pos < p.combined.length := by
      apply bBufOf_nonnil_pos
      intro hnil
      rw [hnil] at hblen
      simp at hblen
    unfold bMeas
    simp only at hr2 ⊢
    omega
  · subst hp
    have hrk : p.rank = 2 := by unfold BHttpParser.rank; rw [hm]
    obtain ⟨-, -, hcode, hmsg, -⟩ := bMode_header_iff.mp hm
    have hr1 : ({ p with
        end_headers := true
        pos := p.pos + strideOf (strLen ((bBufOf p).take k)) (bBufOf p) } : BHttpParser).rank
          ≤ 1 :=
      bRank_le_one (by simpa using hcode) (by simpa using hmsg) (by simp)
    unfold bMeas
    simp only at hr1 ⊢
    omega
  · subst hp
    have hrk : p.rank = 2 := by unfold BHttpParser.rank; rw [hm]
    obtain ⟨-, -, hcode, hmsg, -⟩ := bMode_header_iff.mp hm
    have hr1 : ({ p with
        end_headers := true
        content_length := some n
        pos := p.pos + strideOf (strLen ((bBufOf p).take k)) (bBufOf p) } : BHttpParser).rank
          ≤ 1 :=
      bRank_le_one (by simpa using hcode) (by simpa using hmsg) (by simp)
    unfold bMeas
    simp only at hr1 ⊢
    omega
  · subst hp
    have hrk : p.rank = 1 := by unfold BHttpParser.rank; rw [hm]
    obtain ⟨-, -, hcode, hmsg, heh, -, -⟩ := bMode_body_iff.mp hm
    have hr0 : ({ p with
        parsed := { p.parsed with body := some body }
        pos := p.pos + strLen (bBufOf p) } : BHttpParser).rank = 0 :=
      bRank_eq_zero (by simpa using hcode) (by simpa using hmsg) (by simpa using heh)
        (by simp)
    unfold bMeas
    simp only at hr0 ⊢
    omega

/-! ### Byte-level model: fuel does not matter once it covers the measure -/

theorem bNext_stop_of_bMeas_zero {p : BHttpParser} (h : bMeas p = 0) : bNext p = .stop :=
  bNext_eq_stop_of_rank_zero (by unfold bMeas at h; omega)

theorem bRunFuel_irrel :
    ∀ (f g : Nat) (p : BHttpParser), bMeas p ≤ f → bMeas p ≤ g →
      bRunFuel f p = bRunFuel g p := by
  intro f
  induction f with
  | zero =>
    intro g p hf hg
    have hs : bNext p = .stop := bNext_stop_of_bMeas_zero (by omega)
    cases g with
    | zero => rfl
    | succ g => simp [bRunFuel, hs]
  | succ f ih =>
    intro g p hf hg
    cases g with
    | zero =>
      have hs : bNext p = .stop := bNext_stop_of_bMeas_zero (by omega)
      simp [bRunFuel, hs]
    | succ g =>
      cases hn : bNext p with
      | cont p' =>
        have hlt := bNext_cont_meas hn
        simp only [bRunFuel, hn]
        exact ih g p' (by omega) (by omega)
      | stop => simp [bRunFuel, hn]
      | fail p' m => simp [bRunFuel, hn]
      | crash p' => simp [bRunFuel, hn]

theorem bRun_stop {p : BHttpParser} (h : bNext p = .stop) : bRun p = (p, .ok) := by
  unfold bRun
  cases hm : bMeas p with
  | zero => rfl
  | succ m => simp [bRunFuel, h]

theorem bRun_cont {p p' : BHttpParser} (h : bNext p = .cont p') : bRun p = bRun p' := by
  have hlt := bNext_cont_meas h
  unfold bRun
  cases hm : bMeas p with
  | zero => exact absurd (hm ▸ hlt) (Nat.not_lt_zero _)
  | succ m =>
    simp only [bRunFuel, h]
    exact bRunFuel_irrel m (bMeas p') p' (by omega) (le_refl _)

theorem bRun_fail {p p' : BHttpParser} {m : String} (h : bNext p = .fail p' m) :
    bRun p = (p', .err m) := by
  unfold bRun
  cases hm : bMeas p with
  | zero =>
    have hs := bNext_stop_of_bMeas_zero hm
    rw [h] at hs
    simp at hs
  | succ f => simp [bRunFuel, h]

theorem bRun_crash {p p' : BHttpParser} (h : bNext p = .crash p') :
    bRun p = (p', .crash) := by
  unfold bRun
  cases hm : bMeas p with
  | zero =>
    have hs := bNext_stop_of_bMeas_zero hm
    rw [h] at hs
    simp at hs
  | succ f => simp [bRunFuel, h]

/-! ### The char-level model is the ASCII instance of the byte-level model -/

/-- C2 counterexample: after a fatal error, a subsequent feed with
valid-looking bytes does not report the same failure outcome; the first
call fails, the second returns success. -/
theorem c2_counterexample :
    ((HttpParser.init true).parse "XTTP/1.1 !".toList).2
        = .err "Error parsing HTTP: Comparison failed" ∧
      (((HttpParser.init true).parse "XTTP/1.1 !".toList).1.parse
          "HTTP/1.1 200 OK\r\n".toList).2 = .ok :=
  ⟨by decide, by decide⟩

/-- C2 (amended): after any fatal error has set the error flag, every
subsequent parse call returns success, only appends the fed bytes to the
internal buffer, and leaves the cursor and the ParsedResponse unchanged. -/
theorem c2_error_sticky (p : HttpParser) (s : List Char) (h : p.error = true) :
    p.parse s = ({ p with combined := p.combined ++ s }, .ok) :=
  parse_of_error s h

theorem c2_error_sticky_witness :
    (((HttpParser.init true).parse "XTTP/1.1 !".toList).1.error = true) ∧
      ((HttpParser.init true).parse "XTTP/1.1 !".toList).1.parse
          "HTTP/1.1 200 OK".toList
        = ({ ((HttpParser.init true).parse "XTTP/1.1 !".toList).1 with
              combined := ((HttpParser.init true).parse "XTTP/1.1 !".toList).1.combined
                ++ "HTTP/1.1 200 OK".toList }, .ok) :=
  ⟨by decide, c2_error_sticky _ _ (by decide)⟩

/-- C3: with read_body true and a transfer-encoding header present at the
blank line, the source reaches the todo macro and panics: in the model,
feed evaluates to the crash outcome and the crashed flag is set, so feed
does not return an unsupported-feature error. -/
theorem c3_transfer_encoding_todo_panic :
    ((HttpParser.init true).parse
        "HTTP/1.1 200 OK\r\nTransfer-Encoding: chunked\r\n\r\n".toList).2
        = .crash ∧
      ((HttpParser.init true).parse
        "HTTP/1.1 200 OK\r\nTransfer-Encoding: chunked\r\n\r\n".toList).1.crashed
        = true :=
  ⟨by decide, by decide⟩

/-- C4 counterexample: with content-length 1 and two buffered body bytes,
the body is the first character only, but the cursor advances to 40, the
end of the 40-character buffer, i.e. past the unconsumed extra byte. -/
theorem c4_counterexample :
    ((HttpParser.init true).parse
        "HTTP/1.1 200 OK\r\nContent-Length: 1\r\n\r\nab".toList).1.parsed.body
        = some ['a'] ∧
      "HTTP/1.1 200 OK\r\nContent-Length: 1\r\n\r\nab".toList.length = 40 ∧
      ((HttpParser.init true).parse
        "HTTP/1.1 200 OK\r\nContent-Length: 1\r\n\r\nab".toList).1.pos = 40 :=
  ⟨by decide, by decide, by decide⟩

/-- C4 (amended): when the body step completes, exactly the declared
content-length count of characters at the cursor becomes the body; bytes
beyond that length never enter the body and are never examined again (a
done parser makes no further transitions), but the cursor advances to the
end of the buffer rather than stopping after the body. -/
theorem c4_body_step (p : HttpParser) (n : Nat) (hpos : posInv p)
    (hm : p.mode = .body) (hc : p.content_length = some n)
    (hl : ¬(bufOf p).length < n) :
    (∃ p', next p = .cont p' ∧ p'.parsed.body = some ((bufOf p).take n) ∧
      p'.pos = p.combined.length ∧ p'.combined = p.combined) ∧
    (∀ (q : HttpParser) (s : List Char), q.mode = .done →
      q.parse s = (q.push s, .ok)) := by
  constructor
  · refine ⟨_, next_body_ok hm hc hl, by simp, ?_, by simp⟩
    have := bufOf_length p
    unfold posInv at hpos
    simp only
    omega
  · exact fun q s hq => parse_stuck s (Or.inl hq)

theorem c4_body_step_witness :
    ((∃ p', next (((HttpParser.init true).parse
          "HTTP/1.1 200 OK\r\nContent-Length: 1\r\n\r\n".toList).1.push
            "ab".toList) = .cont p' ∧
        p'.parsed.body = some ((bufOf (((HttpParser.init true).parse
          "HTTP/1.1 200 OK\r\nContent-Length: 1\r\n\r\n".toList).1.push
            "ab".toList)).take 1) ∧
        p'.pos = (((HttpParser.init true).parse
          "HTTP/1.1 200 OK\r\nContent-Length: 1\r\n\r\n".toList).1.push
            "ab".toList).combined.length ∧
        p'.combined = (((HttpParser.init true).parse
          "HTTP/1.1 200 OK\r\nContent-Length: 1\r\n\r\n".toList).1.push
            "ab".toList).combined) ∧
      (∀ (q : HttpParser) (s : List Char), q.mode = .done →
        q.parse s = (q.push s, .ok))) :=
  c4_body_step _ 1 (by unfold posInv; decide) (by decide) (by decide) (by decide)

/-- C5 counterexample: the buffered data "HTTP/1.1 2A" is shorter than the
required literals (11 characters, fewer than 13), yet feed is fatal rather
than need-more-data, because each buffered status-code character is
checked before the length. -/
theorem c5_counterexample :
    "HTTP/1.1 2A".toList.length < 13 ∧
      ((HttpParser.init true).parse "HTTP/1.1 2A".toList).2
        = .err "Error parsing HTTP: HTTP code must be 3 digits" ∧
      ((HttpParser.init true).parse "HTTP/1.1 2A".toList).1.error = true :=
  ⟨by decide, by decide, by decide⟩

/-- C5 (amended): the status-line step of a fresh parser expects the
literal prefix, then 3 ASCII digits, then a space. A buffered wrong
9-character prefix is fatal; a non-digit among the buffered status-code
characters is fatal with the 3-digits error even when fewer than 3 of
them are buffered; on success the 3 digits parsed base-10 become the
status code and 13 characters are consumed; and buffered data shorter
than the required literals is need-more-data (feed returns success, state
unchanged) provided every buffered character matches the expected
pattern. -/
theorem c5_status_line :
    (∀ (rb : Bool) (s : List Char), ¬s.length < 9 → s.take 9 ≠ httpSig →
      ((HttpParser.init rb).parse s).2 = .err (errMsg "Comparison failed")) ∧
    (∀ (rb : Bool) (s : List Char), s.take 9 = httpSig →
      (∃ c ∈ (s.drop 9).take 3, isDigitC c = false) →
      ((HttpParser.init rb).parse s).2 = .err (errMsg "HTTP code must be 3 digits")) ∧
    (∀ (rb : Bool) (d1 d2 d3 : Char) (t : List Char),
      isDigitC d1 = true → isDigitC d2 = true → isDigitC d3 = true →
      ∃ p', next ((HttpParser.init rb).push (httpSig ++ d1 :: d2 :: d3 :: ' ' :: t))
          = .cont p' ∧
        p'.parsed.code = some (Int.ofNat
          (100 * (d1.toNat - 48) + 10 * (d2.toNat - 48) + (d3.toNat - 48))) ∧
        p'.pos = 13) ∧
    (∀ (rb : Bool) (s : List Char), s.length < 13 →
      (s.length < 9 ∨
        (s.take 9 = httpSig ∧ ∀ c ∈ (s.drop 9).take 3, isDigitC c = true)) →
      (HttpParser.init rb).parse s = ((HttpParser.init rb).push s, .ok)) := by
  refine ⟨?_, ?_, ?_, ?_⟩
  · intro rb s h9 hsig
    unfold HttpParser.parse
    have hmode : ((HttpParser.init rb).push s).mode = .code := by
      rw [mode_push]
      exact mode_init rb
    have hcs : codeStep (bufOf ((HttpParser.init rb).push s))
        = .fatal "Comparison failed" := by
      rw [bufOf_init_push]
      exact codeStep_fatal_prefix h9 hsig
    rw [run_fail (next_code_fatal hmode hcs)]
  · intro rb s hsig hbad
    unfold HttpParser.parse
    have hmode : ((HttpParser.init rb).push s).mode = .code := by
      rw [mode_push]
      exact mode_init rb
    have hcs : codeStep (bufOf ((HttpParser.init rb).push s))
        = .fatal "HTTP code must be 3 digits" := by
      rw [bufOf_init_push]
      exact codeStep_fatal_digits hsig hbad
    rw [run_fail (next_code_fatal hmode hcs)]
  · intro rb d1 d2 d3 t h1 h2 h3
    have hmode : ((HttpParser.init rb).push
        (httpSig ++ d1 :: d2 :: d3 :: ' ' :: t)).mode = .code := by
      rw [mode_push]
      exact mode_init rb
    have hcs : codeStep (bufOf ((HttpParser.init rb).push
        (httpSig ++ d1 :: d2 :: d3 :: ' ' :: t)))
        = .ok (Int.ofNat (digitsVal [d1, d2, d3])) := by
      rw [bufOf_init_push]
      exact codeStep_success d1 d2 d3 t h1 h2 h3
    refine ⟨_, next_code_ok hmode hcs, ?_, by simp [HttpParser.push, HttpParser.init]⟩
    simp only
    rw [digitsVal_triple]
  · intro rb s hlen hok
    unfold HttpParser.parse
    have hmode : ((HttpParser.init rb).push s).mode = .code := by
      rw [mode_push]
      exact mode_init rb
    have hcs : codeStep (bufOf ((HttpParser.init rb).push s)) = .eos := by
      rw [bufOf_init_push]
      exact codeStep_eos_short hlen hok
    rw [run_stop (next_code_eos hmode hcs)]

theorem c5_status_line_witness :
    (((HttpParser.init true).parse "XTTP/1.1 !".toList).2
        = .err (errMsg "Comparison failed")) ∧
      (((HttpParser.init true).parse "HTTP/1.1 2AB ".toList).2
        = .err (errMsg "HTTP code must be 3 digits")) ∧
      (∃ p', next ((HttpParser.init true).push
            (httpSig ++ '2' :: '0' :: '0' :: ' ' :: "OK".toList)) = .cont p' ∧
        p'.parsed.code = some (Int.ofNat
          (100 * ('2'.toNat - 48) + 10 * ('0'.toNat - 48) + ('0'.toNat - 48))) ∧
        p'.pos = 13) ∧
      ((HttpParser.init true).parse "HTTP/1.1 2".toList
        = ((HttpParser.init true).push "HTTP/1.1 2".toList, .ok)) :=
  ⟨c5_status_line.1 true _ (by decide) (by decide),
    c5_status_line.2.1 true _ (by decide) (by decide),
    c5_status_line.2.2.1 true '2' '0' '0' "OK".toList (by decide) (by decide) (by decide),
    c5_status_line.2.2.2 true _ (by decide) (Or.inr ⟨by decide, by decide⟩)⟩

/-- C6: header step. A non-empty header line without the colon-space
separator is fatal with the invalid-header error; a line built as key,
separator, value with a separator-free key is split at that first
occurrence, the key is lower-cased and inserted (overwriting); feeding
two same-named headers leaves the later value in the map. -/
theorem c6_header_step :
    (∀ (p : HttpParser) (line : List Char) (k : Nat),
      p.mode = .header → extractToEol (bufOf p) = some (line, k) →
      splitOnceCS line = none → line ≠ [] →
      next p = .fail { p with error := true }
        (errMsg ("Invalid HTTP header: " ++ String.mk line))) ∧
    (∀ (p : HttpParser) (key val : List Char) (k : Nat),
      p.mode = .header → extractToEol (bufOf p) = some (key ++ ':' :: ' ' :: val, k) →
      splitOnceCS key = none →
      ∃ p', next p = .cont p' ∧
        p'.parsed.headers = insertH p.parsed.headers (key.map Char.toLower) val) ∧
    (getH (((HttpParser.init true).parse
        "HTTP/1.1 200 OK\r\nX: a\r\nX: b\r\n".toList).1.parsed.headers) "x".toList
      = some "b".toList) := by
  refine ⟨fun p line k hm he hs hne => next_header_invalid hm he hs hne,
    fun p key val k hm he hkey =>
      ⟨_, next_header_pair hm he (splitOnceCS_sep val hkey), by simp⟩,
    by decide⟩

theorem c6_header_step_witness :
    (next (((HttpParser.init true).parse "HTTP/1.1 200 OK\r\n".toList).1.push
          "garbage\r\n".toList)
        = .fail { ((HttpParser.init true).parse "HTTP/1.1 200 OK\r\n".toList).1.push
              "garbage\r\n".toList with error := true }
          (errMsg ("Invalid HTTP header: " ++ String.mk "garbage".toList))) ∧
      (∃ p', next (((HttpParser.init true).parse "HTTP/1.1 200 OK\r\n".toList).1.push
            "X: a\r\n".toList) = .cont p' ∧
        p'.parsed.headers = insertH
          (((HttpParser.init true).parse "HTTP/1.1 200 OK\r\n".toList).1.push
            "X: a\r\n".toList).parsed.headers ("X".toList.map Char.toLower) "a".toList) :=
  ⟨c6_header_step.1 _ "garbage".toList 9 (by decide) (by decide) (by decide) (by decide),
    c6_header_step.2.1 _ "X".toList "a".toList 6 (by decide) (by decide) (by decide)⟩

/-- C7: a blank line terminating the headers with neither content-length
nor transfer-encoding, with read_body true, is fatal with the missing
content length specifier error, and the body is never set: the parsed
fields of an errored parser never change under further feeds. -/
theorem c7_missing_length :
    (∀ (p : HttpParser) (k : Nat),
      p.mode = .header → extractToEol (bufOf p) = some ([], k) →
      p.read_body = true → getH p.parsed.headers teKey = none →
      getH p.parsed.headers clKey = none →
      next p = .fail { p with end_headers := true, error := true }
        (errMsg "Missing content length specifier")) ∧
    (∀ (q : HttpParser) (ss : List (List Char)), q.error = true →
      (feedList q ss).parsed = q.parsed) ∧
    (((HttpParser.init true).parse "HTTP/1.1 200 OK\r\na: b\r\n\r\nrest".toList).2
        = .err (errMsg "Missing content length specifier") ∧
      ((HttpParser.init true).parse
        "HTTP/1.1 200 OK\r\na: b\r\n\r\nrest".toList).1.parsed.body = none) := by
  refine ⟨fun p k hm he hrb hte hcl => next_header_blank_missing hm he hrb hte hcl,
    fun q ss hq => ?_, by decide, by decide⟩
  rw [feedList_of_error ss q hq]
  rfl

theorem c7_missing_length_witness :
    (next (((HttpParser.init true).parse "HTTP/1.1 200 OK\r\nfoo: bar\r\n".toList).1.push
          "\r\n".toList)
        = .fail { ((HttpParser.init true).parse
              "HTTP/1.1 200 OK\r\nfoo: bar\r\n".toList).1.push "\r\n".toList with
            end_headers := true, error := true }
          (errMsg "Missing content length specifier")) ∧
      ((feedList (((HttpParser.init true).parse "XTTP/1.1 !".toList).1)
          ["abc".toList]).parsed
        = (((HttpParser.init true).parse "XTTP/1.1 !".toList).1).parsed) :=
  ⟨c7_missing_length.1 _ 2 (by decide) (by decide) (by decide) (by decide) (by decide),
    c7_missing_length.2.1 _ ["abc".toList] (by decide)⟩

/-- C8: headers-only mode. With read_body false, consuming the blank line
transitions directly past the headers: should_continue becomes false with
no failure, even when further bytes remain buffered and even when a
transfer-encoding header is present and no content-length exists. -/
theorem c8_headers_only :
    (∀ (p : HttpParser) (k : Nat),
      p.mode = .header → extractToEol (bufOf p) = some ([], k) →
      p.read_body = false →
      ∃ p', next p = .cont p' ∧ p'.end_headers = true ∧
        p'.should_continue = false ∧ p'.parsed = p.parsed) ∧
    (((HttpParser.init false).parse
        "HTTP/1.1 101 S\r\ntransfer-encoding: chunked\r\n\r\nXX".toList).2 = .ok ∧
      ((HttpParser.init false).parse
        "HTTP/1.1 101 S\r\ntransfer-encoding: chunked\r\n\r\nXX".toList).1.should_continue
        = false ∧
      ((HttpParser.init false).parse
        "HTTP/1.1 101 S\r\ntransfer-encoding: chunked\r\n\r\nXX".toList).1.pos = 46 ∧
      ((HttpParser.init false).parse
        "HTTP/1.1 101 S\r\ntransfer-encoding: chunked\r\n\r\nXX".toList).1.combined.length
        = 48 ∧
      ((HttpParser.init false).parse
        "HTTP/1.1 101 S\r\ntransfer-encoding: chunked\r\n\r\nXX".toList).1.crashed
        = false) := by
  refine ⟨fun p k hm he hrb => ⟨_, next_header_blank_nobody hm he hrb, rfl, ?_, rfl⟩,
    by decide, by decide, by decide, by decide, by decide⟩
  unfold HttpParser.should_continue
  simp [hrb]

theorem c8_headers_only_witness :
    ∃ p', next (((HttpParser.init false).parse "HTTP/1.1 101 S\r\n".toList).1.push
        "\r\nleftover".toList) = .cont p' ∧ p'.end_headers = true ∧
      p'.should_continue = false ∧
      p'.parsed = (((HttpParser.init false).parse "HTTP/1.1 101 S\r\n".toList).1.push
        "\r\nleftover".toList).parsed :=
  c8_headers_only.1 _ 2 (by decide) (by decide) (by decide)

/-- C9: status-line round trip. The exact bytes of a complete response
with status 200, reason OK, one content-length header and body hello
parse, in one feed to a fresh parser with read_body true, to precisely
that ParsedResponse, and parsing is complete. -/
theorem c9_round_trip :
    ((HttpParser.init true).parse
        "HTTP/1.1 200 OK\r\nContent-Length: 5\r\n\r\nhello".toList).2 = .ok ∧
      ((HttpParser.init true).parse
        "HTTP/1.1 200 OK\r\nContent-Length: 5\r\n\r\nhello".toList).1.parsed.code
        = some 200 ∧
      ((HttpParser.init true).parse
        "HTTP/1.1 200 OK\r\nContent-Length: 5\r\n\r\nhello".toList).1.parsed.msg
        = some "OK".toList ∧
      ((HttpParser.init true).parse
        "HTTP/1.1 200 OK\r\nContent-Length: 5\r\n\r\nhello".toList).1.parsed.headers
        = [("content-length".toList, "5".toList)] ∧
      ((HttpParser.init true).parse
        "HTTP/1.1 200 OK\r\nContent-Length: 5\r\n\r\nhello".toList).1.parsed.body
        = some "hello".toList ∧
      ((HttpParser.init true).parse
        "HTTP/1.1 200 OK\r\nContent-Length: 5\r\n\r\nhello".toList).1.should_continue
        = false :=
  ⟨by decide, by decide, by decide, by decide, by decide, by decide⟩

/-- C10: whenever should_continue is false in a reachable state with no
error, the ParsedResponse is fully populated for its mode: the status
code and reason phrase are set, and with read_body true the body is set
as well. -/
theorem c10_complete_when_stopped (p : HttpParser) (h : Reachable p)
    (hsc : p.should_continue = false) (herr : p.error = false) :
    p.parsed.code ≠ none ∧ p.parsed.msg ≠ none ∧
      (p.read_body = true → p.parsed.body ≠ none) := by
  obtain ⟨i1, i2, i3⟩ := reachable_StructInv h
  unfold HttpParser.should_continue at hsc
  by_cases hrb : p.read_body = true
  · rw [if_pos hrb, herr] at hsc
    have hb : ¬p.parsed.body = none := by
      have hb2 : p.parsed.body.isSome = true := by
        simpa [Option.isNone_iff_eq_none] using hsc
      simp only [Option.isSome_iff_ne_none] at hb2
      exact hb2
    have heh := i3 hb
    obtain ⟨hmsg, hcode⟩ := i2 heh
    exact ⟨hcode, hmsg, fun _ => hb⟩
  · rw [if_neg hrb, herr] at hsc
    have heh : p.end_headers = true := by simpa using hsc
    obtain ⟨hmsg, hcode⟩ := i2 heh
    exact ⟨hcode, hmsg, fun hx => absurd hx hrb⟩

theorem c10_complete_when_stopped_witness :
    (((HttpParser.init false).parse "HTTP/1.1 200 OK\r\n\r\n".toList).1.parsed.code
        ≠ none ∧
      ((HttpParser.init false).parse
        "HTTP/1.1 200 OK\r\n\r\n".toList).1.parsed.msg ≠ none ∧
      (((HttpParser.init false).parse
          "HTTP/1.1 200 OK\r\n\r\n".toList).1.read_body = true →
        ((HttpParser.init false).parse
          "HTTP/1.1 200 OK\r\n\r\n".toList).1.parsed.body ≠ none)) :=
  c10_complete_when_stopped _
    (Reachable.parse _ _ (Reachable.init false)) (by decide) (by decide)
